import Mathlib

/-!
Shallow embedding of the PCB command layer of the kicad-mcp-server
repository (directory `src/python`), together with proofs checking the
natural-language specification against it.

Conventions used throughout:

* Board-kernel coordinates are exact integers (`Int`), in the kernel's
  internal fixed-point unit (1 mm = 1,000,000 units).
* JSON numbers arriving in command parameters are modelled as exact
  rationals (`Rat`); Python's `int(...)` conversion (truncation toward
  zero) is `pytrunc`.
* Python's floor division `//` on integers is `Int.fdiv`.
* Python truthiness of an optional string parameter (`params.get(...)`)
  is `truthyStr`: `None` and the empty string are falsy.
* Distances that the Python code computes with `math.sqrt` and then only
  ever *compares* (`delete_trace`'s nearest-track search) are modelled by
  their exact squares; `sqrt` is strictly monotone on nonnegative reals,
  so every comparison of two distances, or of a distance against the
  1 mm threshold, is equivalent to the comparison of the squares.
* The external pcbnew kernel facilities that the command layer merely
  invokes (footprint-library lookup, layer-name resolution, design-rule
  defaults) are an explicit `Kernel` record of functions, exactly the
  collaborator interface the commands call into.
-/

namespace KicadMcp

/-- Python `int(q)` on an exact rational: truncation toward zero. -/
def pytrunc (q : ℚ) : ℤ := q.num.tdiv q.den

/-- Python truthiness of an optional string parameter: `None` and the
empty string are falsy, every other string is truthy. -/
def truthyStr : Option String → Bool
  | none => false
  | some s => s ≠ ""

/-- A point in the board kernel's internal integer coordinates
(`pcbnew.VECTOR2I`). -/
structure Vec2 where
  x : ℤ
  y : ℤ
deriving DecidableEq, Repr

/-- `routing.py` unit scaling: `scale = 1000000 if unit == "mm" else
25400000`.  Note the source compares only against `"mm"`: every other
unit string, `"inch"` or not, selects the inch scale. -/
def unitScale (u : String) : ℤ := if u = "mm" then 1000000 else 25400000

/-- A coordinate pair as it arrives in a command parameter dictionary:
exact JSON numbers plus a unit string. -/
structure Coords where
  x : ℚ
  y : ℚ
  unit : String
deriving DecidableEq

/-- Convert user coordinates to internal units the way every handler
does: `int(position["x"] * scale)`. -/
def coordsToVec (c : Coords) : Vec2 :=
  ⟨pytrunc (c.x * (unitScale c.unit : ℤ)), pytrunc (c.y * (unitScale c.unit : ℤ))⟩

/-- A point specification accepted by `RoutingCommands._get_point`:
either literal coordinates (with the unit defaulting to `"mm"` via
`point_spec.get("unit", "mm")`) or a component-reference/pad pair. -/
inductive PointSpec where
  | coords (c : Coords)
  | padRef (componentRef pad : String)
deriving DecidableEq

/-- A footprint (component) on the board, with the fields the command
layer reads and writes.  Pad positions are absolute, as returned by
`pad.GetPosition()`. -/
structure Footprint where
  reference : String
  value : String
  footprintName : String
  pads : List (String × Vec2)
  pos : Vec2
  orientationDeci : ℚ
  layer : ℤ
deriving DecidableEq

instance : Inhabited Footprint := ⟨⟨"", "", "", [], ⟨0, 0⟩, 0, 0⟩⟩

/-- A track segment (`pcbnew.PCB_TRACK`). -/
structure Track where
  uuid : String
  start : Vec2
  stop : Vec2
  layer : ℤ
  width : ℤ
  net : Option String
deriving DecidableEq

/-- The mutable board document: footprints and tracks in insertion
order, plus the set of existing net names. -/
instance : Inhabited Track := ⟨⟨"", ⟨0, 0⟩, ⟨0, 0⟩, 0, 0, none⟩⟩

structure Board where
  footprints : List Footprint
  tracks : List Track
  nets : List String
deriving DecidableEq

/-- The external pcbnew facilities the command layer calls:
`GetLayerID` (negative result means the layer does not exist),
`FootprintLoad` on the board's library path, and the design-settings
defaults for track width and via geometry. -/
structure Kernel where
  getLayerID : String → ℤ
  footprintLoad : String → Option Footprint
  currentTrackWidth : ℤ
  currentViaSize : ℤ
  currentViaDrill : ℤ

/-- A handler response: Python dictionaries `{"success": True, ...}` and
`{"success": False, "message": ..., "errorDetails": ...}`; the
`errorDetails` key is absent from some failure responses. -/
inductive Resp (α : Type) where
  | ok (payload : α)
  | fail (message : String) (errorDetails : Option String)
deriving DecidableEq

/-- The response every board-backed handler returns from its leading
`if not self.board:` check. -/
def noBoardResp {α : Type} : Resp α :=
  .fail "No board is loaded" (some "Load or create a board first")

/-- `BOARD.FindFootprintByReference`: first footprint carrying the
reference. -/
def Board.findFootprint (b : Board) (ref : String) : Option Footprint :=
  b.footprints.find? (fun m => m.reference = ref)

/-- `RoutingCommands._get_point`: literal coordinates are scaled by unit
(`"mm"` → 1,000,000, anything else → 25,400,000); a component/pad pair
is resolved through `FindFootprintByReference` and `FindPadByName`;
every unresolved case raises `ValueError("Invalid point specification")`,
modelled as `Except.error`. -/
def getPoint (b : Board) : PointSpec → Except String Vec2
  | .coords c => .ok (coordsToVec c)
  | .padRef componentRef pad =>
    match b.findFootprint componentRef with
    | some m =>
      match m.pads.find? (fun p => p.1 = pad) with
      | some p => .ok p.2
      | none => .error "Invalid point specification"
    | none => .error "Invalid point specification"

/-! ## ComponentCommands.place_component -/

/-- Parameters of `place_component`.  `componentId = ""` models a
missing or empty `componentId` (both falsy in Python); `position = none`
models a missing position dictionary. -/
structure PlaceParams where
  componentId : String
  position : Option Coords
  reference : Option String
  value : Option String
  footprint : Option String
  rotation : ℚ
  layer : String
deriving DecidableEq

/-- The `"component"` payload returned by a successful
`place_component`: the echoed user-unit position plus the resolved
fields. -/
structure PlacedComponent where
  reference : String
  value : String
  x : ℚ
  y : ℚ
  unit : String
  rotation : ℚ
  layer : String
deriving DecidableEq

instance : Inhabited PlacedComponent := ⟨⟨"", "", 0, 0, "mm", 0, ""⟩⟩

/-- `ComponentCommands.place_component`.  Checks the board, then the
required parameters, loads the footprint from the library, sets
position/reference/value/footprint-name/orientation/layer and adds the
footprint to the board.  There is no duplicate-reference check. -/
def place_component (k : Kernel) (b : Option Board) (p : PlaceParams) :
    Resp PlacedComponent × Option Board :=
  match b with
  | none => (noBoardResp, none)
  | some board =>
    if p.componentId = "" ∨ p.position = none then
      (.fail "Missing parameters" (some "componentId and position are required"), some board)
    else
      match k.footprintLoad p.componentId with
      | none =>
        (.fail "Component not found"
          (some ("Could not find component: " ++ p.componentId)), some board)
      | some module0 =>
        let c := p.position.getD ⟨0, 0, "mm"⟩
        let m1 := { module0 with pos := coordsToVec c }
        let m2 := if truthyStr p.reference then
            { m1 with reference := p.reference.getD "" } else m1
        let m3 := if truthyStr p.value then
            { m2 with value := p.value.getD "" } else m2
        let m4 := if truthyStr p.footprint then
            { m3 with footprintName := p.footprint.getD "" } else m3
        let m5 := { m4 with orientationDeci := p.rotation * 10 }
        let lid := k.getLayerID p.layer
        let m6 := if 0 ≤ lid then { m5 with layer := lid } else m5
        let board1 := { board with footprints := board.footprints ++ [m6] }
        (.ok ⟨m6.reference, m6.value, c.x, c.y, c.unit, p.rotation, p.layer⟩,
          some board1)

/-! ## ComponentCommands._place_grid_array -/

/-- Row-major iteration order of the two nested `for` loops
`for row in range(rows): for col in range(columns):`. -/
def gridCells (rows columns : ℕ) : List (ℕ × ℕ) :=
  (List.range rows).flatMap (fun row => (List.range columns).map (fun col => (row, col)))

/-- The parameter dictionary `_place_grid_array` hands to
`place_component` for cell `(row, col)`: position
`(startX + col*spacingX, startY + row*spacingY)` in the start position's
unit, reference `prefix + (row*columns + col + 1)`. -/
def gridCellParams (componentId : String) (startPos : Coords)
    (columns : ℕ) (spacingX spacingY : ℚ) (refPfx : String)
    (value : Option String) (rotation : ℚ) (layer : String)
    (cell : ℕ × ℕ) : PlaceParams :=
  { componentId := componentId
    position := some ⟨startPos.x + cell.2 * spacingX, startPos.y + cell.1 * spacingY,
      startPos.unit⟩
    reference := some (refPfx ++ Nat.repr (cell.1 * columns + cell.2 + 1))
    value := value
    footprint := none
    rotation := rotation
    layer := layer }

/-- `ComponentCommands._place_grid_array`: walks the grid row-major,
placing each cell through `place_component` and collecting only the
successful placements (failed cells are silently dropped). -/
def place_grid_array (k : Kernel) (b : Board) (componentId : String)
    (startPos : Coords) (rows columns : ℕ) (spacingX spacingY : ℚ)
    (refPfx : String) (value : Option String) (rotation : ℚ)
    (layer : String) : Board × List PlacedComponent :=
  (gridCells rows columns).foldl
    (fun acc cell =>
      match place_component k (some acc.1)
        (gridCellParams componentId startPos columns spacingX spacingY
          refPfx value rotation layer cell) with
      | (.ok comp, some b1) => (b1, acc.2 ++ [comp])
      | _ => acc)
    (b, [])

/-! ## ComponentCommands.duplicate_component -/

/-- Parameters of `duplicate_component`. -/
structure DuplicateParams where
  reference : Option String
  newReference : Option String
  position : Option Coords
  rotation : Option ℚ
deriving DecidableEq

/-- `ComponentCommands.duplicate_component`: fails when source is
missing or the new reference is already used (the explicit
duplicate-reference check); otherwise copies footprint name, value,
layer and pads, placing at the given position or at the source offset
by +5 mm on X. -/
def duplicate_component (b : Option Board) (p : DuplicateParams) :
    Resp PlacedComponent × Option Board :=
  match b with
  | none => (noBoardResp, none)
  | some board =>
    if ¬ truthyStr p.reference ∨ ¬ truthyStr p.newReference then
      (.fail "Missing parameters" (some "reference and newReference are required"),
        some board)
    else
      let ref := p.reference.getD ""
      let newRef := p.newReference.getD ""
      match board.findFootprint ref with
      | none =>
        (.fail "Component not found" (some ("Could not find component: " ++ ref)),
          some board)
      | some source =>
        if (board.findFootprint newRef).isSome then
          (.fail "Reference already exists"
            (some ("A component with reference " ++ newRef ++ " already exists")),
            some board)
        else
          let newPos : Vec2 :=
            match p.position with
            | some c => coordsToVec c
            | none => ⟨source.pos.x + 5000000, source.pos.y⟩
          let newOrient : ℚ :=
            match p.rotation with
            | some r => r * 10
            | none => source.orientationDeci
          let newModule : Footprint :=
            { reference := newRef
              value := source.value
              footprintName := source.footprintName
              pads := source.pads
              pos := newPos
              orientationDeci := newOrient
              layer := source.layer }
          let board1 := { board with footprints := board.footprints ++ [newModule] }
          (.ok ⟨newRef, newModule.value, (newPos.x : ℚ) / 1000000,
              (newPos.y : ℚ) / 1000000, "mm", newOrient / 10, ""⟩,
            some board1)

/-! ## ComponentCommands._align_components_horizontally / _vertically -/

/-- Comparison key of `components.sort(key=lambda m: m.GetPosition().x)`. -/
def leX (a b : Footprint) : Bool := a.pos.x ≤ b.pos.x

/-- Comparison key of `components.sort(key=lambda m: m.GetPosition().y)`. -/
def leY (a b : Footprint) : Bool := a.pos.y ≤ b.pos.y

/-- `ComponentCommands._align_components_horizontally`.  Sets every
component's Y to `y_sum // n` (Python floor division), sorts by X
ascending (Python's stable sort, modelled by the stable `mergeSort`),
then optionally redistributes the X coordinates: with `"equal"`, the
interior components (indices `range(1, n-1)`) get
`x_min + i * ((x_max - x_min) // (n-1))`; with `"spacing"` every
component after the first is moved `int(spacing * 1e6)` to the right of
its predecessor (so component `i` sits at `x_0 + i * spacing_nm`). -/
def align_horizontally (comps : List Footprint) (distribution : String)
    (spacing : Option ℚ) : List Footprint :=
  match comps with
  | [] => []
  | _ =>
    let n := comps.length
    let ySum : ℤ := (comps.map (fun m => m.pos.y)).sum
    let yAvg := ySum.fdiv n
    let sorted := (comps.mergeSort leX).map (fun m => { m with pos := ⟨m.pos.x, yAvg⟩ })
    if distribution = "equal" ∧ 1 < n then
      let xMin := (sorted.headD default).pos.x
      let xMax := (sorted.getLastD default).pos.x
      let spacingNm := (xMax - xMin).fdiv (n - 1)
      sorted.mapIdx (fun i m =>
        if 1 ≤ i ∧ i < n - 1 then { m with pos := ⟨xMin + i * spacingNm, m.pos.y⟩ }
        else m)
    else if distribution = "spacing" ∧ spacing.isSome then
      let spacingNm := pytrunc (spacing.getD 0 * 1000000)
      let x0 := (sorted.headD default).pos.x
      sorted.mapIdx (fun i m =>
        if 1 ≤ i then { m with pos := ⟨x0 + i * spacingNm, m.pos.y⟩ } else m)
    else sorted

/-- `ComponentCommands._align_components_vertically`: the symmetric
routine with the roles of X and Y swapped. -/
def align_vertically (comps : List Footprint) (distribution : String)
    (spacing : Option ℚ) : List Footprint :=
  match comps with
  | [] => []
  | _ =>
    let n := comps.length
    let xSum : ℤ := (comps.map (fun m => m.pos.x)).sum
    let xAvg := xSum.fdiv n
    let sorted := (comps.mergeSort leY).map (fun m => { m with pos := ⟨xAvg, m.pos.y⟩ })
    if distribution = "equal" ∧ 1 < n then
      let yMin := (sorted.headD default).pos.y
      let yMax := (sorted.getLastD default).pos.y
      let spacingNm := (yMax - yMin).fdiv (n - 1)
      sorted.mapIdx (fun i m =>
        if 1 ≤ i ∧ i < n - 1 then { m with pos := ⟨m.pos.x, yMin + i * spacingNm⟩ }
        else m)
    else if distribution = "spacing" ∧ spacing.isSome then
      let spacingNm := pytrunc (spacing.getD 0 * 1000000)
      let y0 := (sorted.headD default).pos.y
      sorted.mapIdx (fun i m =>
        if 1 ≤ i then { m with pos := ⟨m.pos.x, y0 + i * spacingNm⟩ } else m)
    else sorted

/-! ## RoutingCommands distance helpers

The Python code computes Euclidean distances with `math.sqrt` and then
only compares them (track selection and the 1 mm threshold), so the
embedding carries the exact squared distances instead: `sqrt` is
strictly monotone on nonnegative reals, hence `d₁ < d₂ ↔ d₁² < d₂²` and
`d < 10⁶ ↔ d² < 10¹²` for the nonnegative distances involved. -/

/-- Squared version of `RoutingCommands._point_distance`. -/
def pointDistSq (p q : Vec2) : ℤ := (p.x - q.x) ^ 2 + (p.y - q.y) ^ 2

/-- Squared version of `RoutingCommands._point_to_track_distance`:
perpendicular point-to-segment distance with the projection coefficient
`c2 = (w·v)/c1` clamped to `[0,1]`, falling back to point-to-point
distance for a zero-length track; the projected point is built with
Python `int()` truncation of `start + c2*v`. -/
def pointToTrackDistSq (p : Vec2) (t : Track) : ℤ :=
  let v : Vec2 := ⟨t.stop.x - t.start.x, t.stop.y - t.start.y⟩
  let w : Vec2 := ⟨p.x - t.start.x, p.y - t.start.y⟩
  let c1 : ℤ := v.x * v.x + v.y * v.y
  if c1 = 0 then pointDistSq p t.start
  else
    let c2 : ℚ := ((w.x * v.x + w.y * v.y : ℤ) : ℚ) / (c1 : ℚ)
    if c2 < 0 then pointDistSq p t.start
    else if 1 < c2 then pointDistSq p t.stop
    else
      pointDistSq p ⟨pytrunc ((t.start.x : ℚ) + c2 * (v.x : ℚ)),
        pytrunc ((t.start.y : ℚ) + c2 * (v.y : ℚ))⟩

/-- One step of the nearest-track search loop of `delete_trace`:
`if dist < min_distance:` keeps the new candidate only when strictly
smaller; `min_distance` starts at `inf`, so the first track always
replaces the initial `none`. -/
def closestStep (p : Vec2) (acc : Option (ℕ × ℤ)) (it : ℕ × Track) : Option (ℕ × ℤ) :=
  let d := pointToTrackDistSq p it.2
  match acc with
  | none => some (it.1, d)
  | some best => if d < best.2 then some (it.1, d) else some best

/-- The nearest-track search of `delete_trace`: fold over the tracks in
board order keeping the first strictly smaller distance, returning the
index and squared distance of the winner. -/
def closestTrack (p : Vec2) (tracks : List Track) : Option (ℕ × ℤ) :=
  tracks.enum.foldl (closestStep p) none

/-! ## RoutingCommands.delete_trace -/

/-- Parameters of `delete_trace`: the `traceUuid` and `position`
selectors (`none`/empty string are falsy). -/
structure DeleteTraceParams where
  traceUuid : Option String
  position : Option Coords
deriving DecidableEq

/-- `RoutingCommands.delete_trace`.  Fails `Missing parameters` only
when *neither* selector is truthy; a truthy `traceUuid` always takes
the by-id path (even when a position is also supplied); otherwise the
by-position path deletes the nearest track when its distance is
strictly below 1 mm (10⁶ internal units, compared here on squares
against 10¹²). -/
def delete_trace (b : Option Board) (p : DeleteTraceParams) :
    Resp Unit × Option Board :=
  match b with
  | none => (noBoardResp, none)
  | some board =>
    if ¬ truthyStr p.traceUuid ∧ p.position = none then
      (.fail "Missing parameters"
        (some "Either traceUuid or position must be provided"), some board)
    else if truthyStr p.traceUuid then
      let uuid := p.traceUuid.getD ""
      match board.tracks.findIdx? (fun t => t.uuid = uuid) with
      | none =>
        (.fail "Track not found"
          (some ("Could not find track with UUID: " ++ uuid)), some board)
      | some i =>
        (.ok (), some { board with tracks := board.tracks.eraseIdx i })
    else
      let c := p.position.getD ⟨0, 0, "mm"⟩
      let point := coordsToVec c
      match closestTrack point board.tracks with
      | some best =>
        if best.2 < 1000000 ^ 2 then
          (.ok (), some { board with tracks := board.tracks.eraseIdx best.1 })
        else
          (.fail "No track found"
            (some "No track found near specified position"), some board)
      | none =>
        (.fail "No track found"
          (some "No track found near specified position"), some board)

/-! ## RoutingCommands.add_via -/

/-- Parameters of `add_via`. -/
structure AddViaParams where
  position : Option Coords
  size : Option ℚ
  drill : Option ℚ
  net : Option String
  fromLayer : String
  toLayer : String
deriving DecidableEq

/-- The `"via"` payload of a successful `add_via`. -/
structure ViaPayload where
  x : ℚ
  y : ℚ
  unit : String
  sizeNm : ℤ
  drillNm : ℤ
deriving DecidableEq

/-- `RoutingCommands.add_via`: scales the position by
`1000000 if position["unit"] == "mm" else 25400000`, takes size and
drill from the parameters or the board's current via settings, and
fails `Invalid layer` when either named layer does not resolve.  (The
via itself is held by the kernel board object, outside the entity lists
this embedding tracks; the payload records the resolved geometry.) -/
def add_via (k : Kernel) (b : Option Board) (p : AddViaParams) :
    Resp ViaPayload × Option Board :=
  match b with
  | none => (noBoardResp, none)
  | some board =>
    if p.position = none then
      (.fail "Missing position" (some "position parameter is required"), some board)
    else
      let c := p.position.getD ⟨0, 0, "mm"⟩
      let sizeNm := match p.size with
        | some s => pytrunc (s * 1000000)
        | none => k.currentViaSize
      let drillNm := match p.drill with
        | some d => pytrunc (d * 1000000)
        | none => k.currentViaDrill
      if k.getLayerID p.fromLayer < 0 ∨ k.getLayerID p.toLayer < 0 then
        (.fail "Invalid layer" (some "Specified layers do not exist"), some board)
      else
        (.ok ⟨c.x, c.y, c.unit, sizeNm, drillNm⟩, some board)

/-! ## RoutingCommands.route_differential_pair -/

/-- Parameters of `route_differential_pair`. -/
structure DiffPairParams where
  startPos : Option PointSpec
  endPos : Option PointSpec
  netPos : Option String
  netNeg : Option String
  layer : String
  width : Option ℚ
  gap : Option ℚ
deriving DecidableEq

/-- The `"diffPair"` payload of a successful call. -/
structure DiffPairPayload where
  posNet : String
  negNet : String
  layer : String
  widthNm : ℤ
  gap : ℚ
  lengthNm : ℚ
deriving DecidableEq

/-- `RoutingCommands.route_differential_pair`.  The source computes the
segment length with floating-point `math.sqrt(dx*dx + dy*dy)`; the
embedding takes that length as the extra exact parameter `len`, which
the theorems constrain by `0 ≤ len` and `len² = dx² + dy²` (the value
the square root denotes; it is exactly representable in every instance
evaluated here).  Direction is `d = (dx, dy)/len`, the perpendicular is
`p = (-d.y, d.x)`, and both rails are the centerline shifted by
`±(int(p.x * gap_nm / 2), int(p.y * gap_nm / 2))` where
`gap_nm = int(gap * 1e6)` and `gap` defaults to 0.2 mm. -/
def route_differential_pair (k : Kernel) (b : Option Board)
    (p : DiffPairParams) (len : ℚ) : Resp DiffPairPayload × Option Board :=
  match b with
  | none => (noBoardResp, none)
  | some board =>
    if p.startPos = none ∨ p.endPos = none ∨
        ¬ truthyStr p.netPos ∨ ¬ truthyStr p.netNeg then
      (.fail "Missing parameters"
        (some "startPos, endPos, netPos, and netNeg are required"), some board)
    else
      let lid := k.getLayerID p.layer
      if lid < 0 then
        (.fail "Invalid layer"
          (some ("Layer " ++ p.layer ++ " does not exist")), some board)
      else
        let netPos := p.netPos.getD ""
        let netNeg := p.netNeg.getD ""
        if ¬ (netPos ∈ board.nets ∧ netNeg ∈ board.nets) then
          (.fail "Nets not found"
            (some "One or both nets specified for the differential pair do not exist"),
            some board)
        else
          match getPoint board (p.startPos.getD (.coords ⟨0, 0, "mm"⟩)),
              getPoint board (p.endPos.getD (.coords ⟨0, 0, "mm"⟩)) with
          | .error e, _ => (.fail "Failed to route differential pair" (some e), some board)
          | _, .error e => (.fail "Failed to route differential pair" (some e), some board)
          | .ok s, .ok e =>
            if len ≤ 0 then
              (.fail "Invalid points"
                (some "Start and end points must be different"), some board)
            else
              let dx : ℚ := ((e.x - s.x : ℤ) : ℚ) / len
              let dy : ℚ := ((e.y - s.y : ℤ) : ℚ) / len
              let px := -dy
              let py := dx
              let gap := p.gap.getD (2 / 10)
              let gapNm : ℤ := pytrunc (gap * 1000000)
              let offX := pytrunc (px * (gapNm : ℚ) / 2)
              let offY := pytrunc (py * (gapNm : ℚ) / 2)
              let widthNm := match p.width with
                | some w => pytrunc (w * 1000000)
                | none => k.currentTrackWidth
              let posTrack : Track :=
                { uuid := "", start := ⟨s.x + offX, s.y + offY⟩,
                  stop := ⟨e.x + offX, e.y + offY⟩, layer := lid,
                  width := widthNm, net := some netPos }
              let negTrack : Track :=
                { uuid := "", start := ⟨s.x - offX, s.y - offY⟩,
                  stop := ⟨e.x - offX, e.y - offY⟩, layer := lid,
                  width := widthNm, net := some netNeg }
              let board1 := { board with tracks := board.tracks ++ [posTrack, negTrack] }
              (.ok ⟨netPos, netNeg, p.layer, widthNm, gap, len / 1000000⟩, some board1)

/-! ## ExportCommands.export_bom — grouping step -/

/-- A component row as collected from the board before grouping. -/
structure BomComp where
  reference : String
  value : String
  footprint : String
deriving DecidableEq

/-- One output group of the BOM aggregation. -/
structure BomGroup where
  value : String
  footprint : String
  quantity : ℕ
  references : List String
deriving DecidableEq

/-- The grouping key of `export_bom`:
the Python code builds `key = f"{comp['value']}_{comp['footprint']}"`,
a single string with an underscore separator — not the pair. -/
def bomKey (c : BomComp) : String := c.value ++ "_" ++ c.footprint

/-- The in-place dictionary update `grouped[key]["quantity"] += 1;
grouped[key]["references"].append(...)`, applied to the entry carrying
the key of `c` and leaving every other entry untouched. -/
def bomUpdate (c : BomComp) (kg : String × BomGroup) : String × BomGroup :=
  if kg.1 = bomKey c then
    (kg.1, { kg.2 with quantity := kg.2.quantity + 1,
                       references := kg.2.references ++ [c.reference] })
  else kg

/-- One step of the grouping loop: a known key bumps `quantity` and
appends the reference to that entry; a new key appends a fresh entry at
the end (Python dictionaries preserve insertion order). -/
def bomInsert (acc : List (String × BomGroup)) (c : BomComp) :
    List (String × BomGroup) :=
  if (acc.lookup (bomKey c)).isSome then acc.map (bomUpdate c)
  else acc ++ [(bomKey c, ⟨c.value, c.footprint, 1, [c.reference]⟩)]

/-- The grouping step of `ExportCommands.export_bom` (the
`if group_by_value:` block): fold the component list into the keyed
dictionary and take `grouped.values()` in insertion order. -/
def bomGroupComponents (comps : List BomComp) : List BomGroup :=
  (comps.foldl bomInsert []).map Prod.snd

/-- The invariant tying the grouping dictionary to the prefix of
components already processed: keys are distinct, every entry's key is
its group's `value_footprint` string, every entry aggregates exactly
the prefix members carrying its key (in order), and every processed
component has an entry. -/
def BomInv (done : List BomComp) (acc : List (String × BomGroup)) : Prop :=
  (acc.map Prod.fst).Nodup ∧
  (∀ kg ∈ acc, kg.1 = kg.2.value ++ "_" ++ kg.2.footprint ∧
    kg.2.references = (done.filter (fun c => bomKey c = kg.1)).map (fun c => c.reference) ∧
    kg.2.quantity = (done.filter (fun c => bomKey c = kg.1)).length) ∧
  (∀ c ∈ done, ∃ kg ∈ acc, kg.1 = bomKey c)

/-! ## KiCADInterface._handle_add_schematic_wire

A schematic command handler.  The schematic file operations are the
external schematic collaborator (kicad-skip), passed in as functions
over an abstract schematic type; what matters here is the handler's own
control flow: it never consults the board session. -/

/-- `KiCADInterface._handle_add_schematic_wire`: validates its own
parameters, loads the schematic file, adds the wire and saves.  The
board session `b` is threaded through untouched — the handler performs
no `NoBoardLoaded` check. -/
def handle_add_schematic_wire {σ ω : Type}
    (loadSchematic : String → Option σ)
    (addWire : σ → (ℚ × ℚ) → (ℚ × ℚ) → Option ω)
    (saveSchematic : σ → String → Bool)
    (b : Option Board) (schematicPath : Option String)
    (startPoint endPoint : Option (ℚ × ℚ)) : Resp Unit × Option Board :=
  let resp : Resp Unit :=
    if ¬ truthyStr schematicPath then
      .fail "Schematic path is required" none
    else if startPoint = none ∨ endPoint = none then
      .fail "Start and end points are required" none
    else
      match loadSchematic (schematicPath.getD "") with
      | none => .fail "Failed to load schematic" none
      | some sch =>
        match addWire sch (startPoint.getD (0, 0)) (endPoint.getD (0, 0)) with
        | some _ =>
          let _ := saveSchematic sch (schematicPath.getD "")
          .ok ()
        | none => .fail "Failed to add wire" none
  (resp, b)

/-- Decidable equality for `Except` results (used to evaluate
`_get_point` on concrete inputs). -/
instance {ε α : Type} [DecidableEq ε] [DecidableEq α] : DecidableEq (Except ε α) :=
  fun a b =>
    match a, b with
    | .ok x, .ok y =>
      if h : x = y then isTrue (by rw [h]) else isFalse (fun hh => h (Except.ok.inj hh))
    | .error x, .error y =>
      if h : x = y then isTrue (by rw [h]) else isFalse (fun hh => h (Except.error.inj hh))
    | .ok _, .error _ => isFalse (fun hh => Except.noConfusion hh)
    | .error _, .ok _ => isFalse (fun hh => Except.noConfusion hh)

/-- A sample library footprint used by concrete test boards. -/
def sampleFootprint : Footprint :=
  { reference := "REF", value := "10k", footprintName := "R_0603",
    pads := [], pos := ⟨0, 0⟩, orientationDeci := 0, layer := 0 }

/-- A sample kernel: every layer name resolves to id 0, the library
holds exactly the component id `"RES"`, and the design-rule defaults are
0.25 mm tracks and 0.6/0.3 mm vias. -/
def sampleKernel : Kernel :=
  { getLayerID := fun _ => 0
    footprintLoad := fun cid => if cid = "RES" then some sampleFootprint else none
    currentTrackWidth := 250000
    currentViaSize := 600000
    currentViaDrill := 300000 }

/-! ## Decimal-numeral facts

Python's f-string `f"{prefix}{index}"` renders the index in decimal,
which is `Nat.repr`.  The grid-array distinctness claim needs that this
rendering is injective and never empty; neither fact is in the library,
so they are established here from `Nat.digits`. -/

/-- `Nat.toDigitsCore` with sufficient fuel produces the base-10 digit
characters, most significant first (with `'0'` for zero), in front of
the accumulator. -/
theorem toDigitsCore_eq_digits :
    ∀ (fuel n : ℕ) (ds : List Char), n < fuel →
      Nat.toDigitsCore 10 fuel n ds =
        (if n = 0 then ['0'] else ((Nat.digits 10 n).map Nat.digitChar).reverse) ++ ds
  | 0, n, _, h => absurd h (Nat.not_lt_zero n)
  | fuel + 1, n, ds, h => by
    by_cases h0 : n = 0
    · subst h0
      simp [Nat.toDigitsCore, Nat.digitChar]
    · by_cases hsmall : n / 10 = 0
      · have hn10 : n < 10 := (Nat.div_eq_zero_iff (by norm_num)).mp hsmall
        have hdig : Nat.digits 10 n = [n % 10] := by
          rw [Nat.digits_def' (by norm_num : 1 < 10) (Nat.pos_of_ne_zero h0), hsmall]
          simp [Nat.mod_eq_of_lt hn10]
        simp [Nat.toDigitsCore, hsmall, h0, hdig]
      · have hlt : n / 10 < fuel := by
          have h1 : n / 10 < n := Nat.div_lt_self (Nat.pos_of_ne_zero h0) (by norm_num)
          omega
        have ih := toDigitsCore_eq_digits fuel (n / 10) (Nat.digitChar (n % 10) :: ds) hlt
        have hdig : Nat.digits 10 n = n % 10 :: Nat.digits 10 (n / 10) :=
          Nat.digits_def' (by norm_num : 1 < 10) (Nat.pos_of_ne_zero h0)
        simp only [Nat.toDigitsCore, hsmall, if_false, ih, h0, if_false, hdig,
          List.map_cons, List.reverse_cons, List.append_assoc, List.cons_append,
          List.nil_append]

/-- `Nat.toDigits 10` in terms of `Nat.digits`. -/
theorem toDigits_eq_digits (n : ℕ) :
    Nat.toDigits 10 n =
      (if n = 0 then ['0'] else ((Nat.digits 10 n).map Nat.digitChar).reverse) := by
  have := toDigitsCore_eq_digits (n + 1) n [] (Nat.lt_succ_self n)
  simpa [Nat.toDigits] using this

/-- `Nat.digitChar` is injective on decimal digits. -/
theorem digitChar_inj_lt : ∀ a < 10, ∀ b < 10, Nat.digitChar a = Nat.digitChar b → a = b := by
  decide

/-- Mapping `Nat.digitChar` over lists of decimal digits is injective. -/
theorem map_digitChar_inj :
    ∀ (l1 l2 : List ℕ), (∀ x ∈ l1, x < 10) → (∀ x ∈ l2, x < 10) →
      l1.map Nat.digitChar = l2.map Nat.digitChar → l1 = l2
  | [], [], _, _, _ => rfl
  | [], _ :: _, _, _, h => by simp at h
  | _ :: _, [], _, _, h => by simp at h
  | a :: l1, b :: l2, h1, h2, h => by
    simp only [List.map_cons, List.cons.injEq] at h
    have hab : a = b :=
      digitChar_inj_lt a (h1 a (List.mem_cons_self a l1)) b
        (h2 b (List.mem_cons_self b l2)) h.1
    have hl : l1 = l2 :=
      map_digitChar_inj l1 l2 (fun x hx => h1 x (List.mem_cons_of_mem a hx))
        (fun x hx => h2 x (List.mem_cons_of_mem b hx)) h.2
    rw [hab, hl]

/-- Decimal rendering of naturals is injective. -/
theorem natRepr_injective : Function.Injective Nat.repr := by
  intro a b h
  have hchars : Nat.toDigits 10 a = Nat.toDigits 10 b := by
    have h2 := congrArg String.data h
    simpa [Nat.repr, List.asString] using h2
  rw [toDigits_eq_digits, toDigits_eq_digits] at hchars
  have digitsEq : ∀ {m : ℕ}, m ≠ 0 →
      ((Nat.digits 10 m).map Nat.digitChar).reverse = ['0'] → False := by
    intro m hm hrev
    have h1 : (Nat.digits 10 m).map Nat.digitChar = ['0'] := by
      have := congrArg List.reverse hrev
      simpa using this
    have h2 : Nat.digits 10 m = [0] :=
      map_digitChar_inj _ [0]
        (fun x hx => Nat.digits_lt_base (by norm_num) hx)
        (by intro x hx; simp at hx; omega)
        (by simpa [Nat.digitChar] using h1)
    have : m = 0 := by
      have := Nat.ofDigits_digits 10 m
      rw [h2] at this
      simpa [Nat.ofDigits] using this.symm
    exact hm this
  by_cases ha : a = 0 <;> by_cases hb : b = 0
  · rw [ha, hb]
  · rw [if_pos ha, if_neg hb] at hchars
    exact absurd hchars.symm (fun hrev => digitsEq hb hrev)
  · rw [if_neg ha, if_pos hb] at hchars
    exact absurd hchars (fun hrev => digitsEq ha hrev)
  · rw [if_neg ha, if_neg hb] at hchars
    have hmap : (Nat.digits 10 a).map Nat.digitChar = (Nat.digits 10 b).map Nat.digitChar := by
      have := congrArg List.reverse hchars
      simpa using this
    have hdig : Nat.digits 10 a = Nat.digits 10 b :=
      map_digitChar_inj _ _
        (fun x hx => Nat.digits_lt_base (by norm_num) hx)
        (fun x hx => Nat.digits_lt_base (by norm_num) hx) hmap
    calc a = Nat.ofDigits 10 (Nat.digits 10 a) := (Nat.ofDigits_digits 10 a).symm
    _ = Nat.ofDigits 10 (Nat.digits 10 b) := by rw [hdig]
    _ = b := Nat.ofDigits_digits 10 b

/-- Decimal renderings are never the empty string. -/
theorem natRepr_ne_empty (n : ℕ) : Nat.repr n ≠ "" := by
  intro h
  have hdata : (Nat.toDigits 10 n).asString.data = ("" : String).data := by rw [← h]; rfl
  have hnil : Nat.toDigits 10 n = [] := by simpa [List.asString] using hdata
  rw [toDigits_eq_digits] at hnil
  by_cases h0 : n = 0
  · simp [h0] at hnil
  · rw [if_neg h0] at hnil
    have : Nat.digits 10 n = [] := by simpa using hnil
    exact (Nat.digits_ne_nil_iff_ne_zero.mpr h0) this

/-- Appending a fixed front string to distinct decimal renderings keeps
them distinct. -/
theorem append_natRepr_injective (s : String) :
    Function.Injective (fun n : ℕ => s ++ Nat.repr n) := by
  intro a b h
  apply natRepr_injective
  have hdata := congrArg String.data h
  simp only [String.data_append] at hdata
  exact String.ext (List.append_cancel_left hdata)

/-! ## Evaluation helpers for `pytrunc` -/

/-- `int()` of an exact integer value is that integer. -/
theorem pytrunc_intCast (n : ℤ) : pytrunc ((n : ℚ)) = n := by
  simp [pytrunc]

/-- `int()` of a rational known to equal an integer. -/
theorem pytrunc_eq_intCast {q : ℚ} {n : ℤ} (h : q = ((n : ℤ) : ℚ)) : pytrunc q = n := by
  rw [h, pytrunc_intCast]

/-- Evaluate `coordsToVec` once the two products are known integers. -/
theorem coordsToVec_eq {c : Coords} {a b : ℤ}
    (hx : c.x * ((unitScale c.unit : ℤ) : ℚ) = ((a : ℤ) : ℚ))
    (hy : c.y * ((unitScale c.unit : ℤ) : ℚ) = ((b : ℤ) : ℚ)) :
    coordsToVec c = ⟨a, b⟩ := by
  simp only [coordsToVec]
  rw [pytrunc_eq_intCast hx, pytrunc_eq_intCast hy]

/-! ## Claim C8 — unit conversion

The claim says any unit string other than the two recognized ones fails
`InvalidParameter`.  The code (`_get_point`, and the same inline
`scale = 1000000 if unit == "mm" else 25400000` in `add_via`,
`delete_trace`, `place_component`, …) compares only against `"mm"` and
silently applies the inch scale to everything else; no unit string is
ever rejected. -/

/-- C8 counterexample: the unrecognized unit string `"cubit"` is not
rejected — `_get_point` succeeds and scales by the inch factor
25,400,000. -/
theorem C8_counterexample :
    getPoint ⟨[], [], []⟩ (.coords ⟨1, 2, "cubit"⟩) = .ok ⟨25400000, 50800000⟩ ∧
    ("cubit" = "mm") = False ∧ ("cubit" = "inch") = False := by
  refine ⟨?_, by decide, by decide⟩
  show Except.ok (coordsToVec ⟨1, 2, "cubit"⟩) = _
  have hu : unitScale "cubit" = 25400000 := by simp [unitScale]
  have hx : (1 : ℚ) * ((unitScale "cubit" : ℤ) : ℚ) = ((25400000 : ℤ) : ℚ) := by
    rw [hu]; norm_num
  have hy : (2 : ℚ) * ((unitScale "cubit" : ℤ) : ℚ) = ((50800000 : ℤ) : ℚ) := by
    rw [hu]; norm_num
  rw [coordsToVec_eq hx hy]

/-- C8 (amended): conversion multiplies by 1,000,000 for `"mm"` and by
25,400,000 for every other unit string (including `"inch"` and
malformed ones); `_get_point` never fails on literal coordinates. -/
theorem C8_unit_scale (b : Board) (x y : ℚ) (u : String) :
    getPoint b (.coords ⟨x, y, u⟩) =
      .ok ⟨pytrunc (x * (unitScale u : ℤ)), pytrunc (y * (unitScale u : ℤ))⟩ ∧
    unitScale "mm" = 1000000 ∧
    (u ≠ "mm" → unitScale u = 25400000) := by
  refine ⟨rfl, by simp [unitScale], fun h => by simp [unitScale, h]⟩

/-- C8 witness: the amended statement applied at unit `"inch"`. -/
theorem C8_unit_scale_witness :
    getPoint ⟨[], [], []⟩ (.coords ⟨1, 1, "inch"⟩) =
      .ok ⟨pytrunc (1 * (unitScale "inch" : ℤ)), pytrunc (1 * (unitScale "inch" : ℤ))⟩ ∧
    unitScale "inch" = 25400000 := by
  have h := C8_unit_scale ⟨[], [], []⟩ 1 1 "inch"
  exact ⟨h.1, h.2.2 (by decide)⟩

/-! ## Claim C5 — deleteTrace selector arbitration

The claim says exactly one of the two selectors must be supplied and
that supplying both fails `MissingParameter`.  The code only checks
`if not trace_uuid and not position:` — with both supplied it silently
proceeds down the by-id path. -/

/-- C5 counterexample: supplying *both* a matching `traceUuid` and a
position does not fail `Missing parameters`; the call succeeds on the
by-id path and removes the track. -/
theorem C5_counterexample :
    delete_trace (some ⟨[], [⟨"t1", ⟨0, 0⟩, ⟨1000, 0⟩, 0, 100, none⟩], []⟩)
        ⟨some "t1", some ⟨5, 5, "mm"⟩⟩ =
      (.ok (), some ⟨[], [], []⟩) ∧
    (Resp.ok () : Resp Unit) ≠
      .fail "Missing parameters" (some "Either traceUuid or position must be provided") := by
  refine ⟨by decide, by decide⟩

/-- C5 (amended): `delete_trace` fails `Missing parameters` exactly when
*neither* selector is truthy (and then removes nothing); whenever a
truthy `traceUuid` is supplied — position present or not — the call
behaves as pure deletion by id. -/
theorem C5_selector (b : Board) (p : DeleteTraceParams) :
    ((delete_trace (some b) p).1 =
        Resp.fail "Missing parameters" (some "Either traceUuid or position must be provided")
      ↔ (truthyStr p.traceUuid = false ∧ p.position = none)) ∧
    (truthyStr p.traceUuid = false ∧ p.position = none →
      delete_trace (some b) p =
        (.fail "Missing parameters" (some "Either traceUuid or position must be provided"),
          some b)) ∧
    (truthyStr p.traceUuid = true →
      delete_trace (some b) p = delete_trace (some b) ⟨p.traceUuid, none⟩) := by
  by_cases hcond : (¬ truthyStr p.traceUuid ∧ p.position = none)
  · have ht : truthyStr p.traceUuid = false := by
      rcases hcond with ⟨h1, _⟩
      simpa using h1
    refine ⟨?_, fun _ => by simp only [delete_trace, if_pos hcond], ?_⟩
    · simp only [delete_trace, if_pos hcond]
      simp [ht, hcond.2]
    · intro h1
      rw [h1] at ht
      exact absurd ht (by simp)
  · have hne : (delete_trace (some b) p).1 ≠
        Resp.fail "Missing parameters"
          (some "Either traceUuid or position must be provided") := by
      simp only [delete_trace, if_neg hcond]
      split
      · split <;> simp
      · split
        · split <;> simp
        · simp
    refine ⟨iff_of_false hne ?_, fun h1 => absurd ⟨by simp [h1.1], h1.2⟩ hcond, ?_⟩
    · intro h1
      exact hcond ⟨by simp [h1.1], h1.2⟩
    · intro ht
      have hcond2 : ¬ (¬ truthyStr (DeleteTraceParams.mk p.traceUuid none).traceUuid ∧
          (DeleteTraceParams.mk p.traceUuid none).position = none) := by
        intro hc
        exact hc.1 ht
      simp only [delete_trace, if_neg hcond, if_neg hcond2, ht]
      simp

/-- C5 witness: the amended statement applied with neither selector
supplied — the call fails `Missing parameters` and removes nothing. -/
theorem C5_selector_witness :
    delete_trace (some ⟨[], [], []⟩) ⟨none, none⟩ =
      (.fail "Missing parameters" (some "Either traceUuid or position must be provided"),
        some ⟨[], [], []⟩) :=
  (C5_selector ⟨[], [], []⟩ ⟨none, none⟩).2.1 ⟨rfl, rfl⟩

/-! ## Claim C7 — command gating while no board is loaded

The claim says *every* command other than create/open/list-libraries
fails `NoBoardLoaded` while `Uninitialized`.  Each board-backed handler
does begin with that check, but the schematic handlers operate on
schematic files directly and never consult the board session. -/

/-- C7 counterexample: `add_schematic_wire` dispatched while no board is
loaded does not return the `NoBoardLoaded` failure — it validates its
own parameters (here failing on the missing schematic path) without a
board check, and `add_schematic_wire` is not among
create/open/list-libraries. -/
theorem C7_counterexample :
    @handle_add_schematic_wire Unit Unit (fun _ => none) (fun _ _ _ => none)
        (fun _ _ => true) none none none none =
      (.fail "Schematic path is required" none, none) ∧
    (Resp.fail "Schematic path is required" (none : Option String) : Resp Unit) ≠
      noBoardResp :=
  ⟨rfl, by decide⟩

/-- C7 (amended): while no board session is loaded, every *board-backed*
command handler (component placement and duplication, trace deletion,
via insertion, differential-pair routing) returns the `NoBoardLoaded`
failure and leaves the session state unchanged; schematic commands and
create/open/list-libraries do not require a board. -/
theorem C7_board_gating (k : Kernel) (p1 : PlaceParams) (p2 : DuplicateParams)
    (p3 : DeleteTraceParams) (p4 : AddViaParams) (p5 : DiffPairParams) (len : ℚ) :
    place_component k none p1 = (noBoardResp, none) ∧
    duplicate_component none p2 = (noBoardResp, none) ∧
    delete_trace none p3 = (noBoardResp, none) ∧
    add_via k none p4 = (noBoardResp, none) ∧
    route_differential_pair k none p5 len = (noBoardResp, none) :=
  ⟨rfl, rfl, rfl, rfl, rfl⟩

/-! ## Claim C6 — uniqueness of references

The claim says every component-inserting operation performs an explicit
duplicate-reference check.  Only `duplicate_component` does;
`place_component` inserts unconditionally, so placing an already-used
reference yields two components with the same reference. -/

/-- C6 counterexample: placing component id `"RES"` twice with
reference `"U1"` succeeds both times and leaves two footprints with the
same reference on the board — no `AlreadyExists` refusal happens. -/
theorem C6_counterexample :
    (Option.map (fun bb => bb.footprints.map (fun m => m.reference))
        (place_component sampleKernel
          ((place_component sampleKernel (some ⟨[], [], []⟩)
              ⟨"RES", some ⟨0, 0, "mm"⟩, some "U1", none, none, 0, "F.Cu"⟩).2)
          ⟨"RES", some ⟨0, 0, "mm"⟩, some "U1", none, none, 0, "F.Cu"⟩).2) =
      some ["U1", "U1"] ∧
    (place_component sampleKernel
        ((place_component sampleKernel (some ⟨[], [], []⟩)
            ⟨"RES", some ⟨0, 0, "mm"⟩, some "U1", none, none, 0, "F.Cu"⟩).2)
        ⟨"RES", some ⟨0, 0, "mm"⟩, some "U1", none, none, 0, "F.Cu"⟩).1 =
      .ok ⟨"U1", "10k", 0, 0, "mm", 0, "F.Cu"⟩ ∧
    ¬ (["U1", "U1"].Nodup) := by
  refine ⟨by decide, by decide, by decide⟩

/-- C6 (amended): the duplicate-reference check exists only in
`duplicate_component`, which fails `AlreadyExists` and leaves the board
unchanged when the new reference is already used; `place_component`
performs no such check and always inserts a footprint, so reference
uniqueness is not an invariant of the board. -/
theorem C6_duplicate_check (b : Board) (p : DuplicateParams) (k : Kernel)
    (q : PlaceParams) (fp : Footprint)
    (h1 : truthyStr p.reference = true) (h2 : truthyStr p.newReference = true)
    (hsrc : (b.findFootprint (p.reference.getD "")).isSome = true)
    (hdup : (b.findFootprint (p.newReference.getD "")).isSome = true)
    (hq1 : ¬ q.componentId = "") (hq2 : ¬ q.position = none)
    (hload : k.footprintLoad q.componentId = some fp) :
    duplicate_component (some b) p =
      (.fail "Reference already exists"
        (some ("A component with reference " ++ p.newReference.getD "" ++ " already exists")),
        some b) ∧
    ∃ pl m, place_component k (some b) q =
      (.ok pl, some { b with footprints := b.footprints ++ [m] }) := by
  constructor
  · obtain ⟨src, hsrc2⟩ := Option.isSome_iff_exists.mp hsrc
    simp only [duplicate_component, hsrc2]
    rw [if_neg (by push_neg; exact ⟨h1, h2⟩ : _)]
    · rw [if_pos hdup]
  · simp only [place_component, hload]
    rw [if_neg (by push_neg; exact ⟨hq1, hq2⟩ : _)]
    exact ⟨_, _, rfl⟩

/-- C6 witness: a board already carrying two `"U1"` footprints refuses
`duplicate_component` into `"U1"` with `AlreadyExists` and leaves the
board unchanged, while `place_component` with reference `"U1"` still
inserts. -/
theorem C6_duplicate_check_witness :
    duplicate_component (some ⟨[sampleFootprint], [], []⟩) ⟨some "REF", some "REF", none, none⟩ =
      (.fail "Reference already exists"
        (some ("A component with reference " ++ "REF" ++ " already exists")),
        some ⟨[sampleFootprint], [], []⟩) ∧
    ∃ pl m, place_component sampleKernel (some ⟨[sampleFootprint], [], []⟩)
        ⟨"RES", some ⟨0, 0, "mm"⟩, some "REF", none, none, 0, "F.Cu"⟩ =
      (.ok pl, some { footprints := [sampleFootprint] ++ [m], tracks := [], nets := [] }) := by
  have h := C6_duplicate_check ⟨[sampleFootprint], [], []⟩
    ⟨some "REF", some "REF", none, none⟩ sampleKernel
    ⟨"RES", some ⟨0, 0, "mm"⟩, some "REF", none, none, 0, "F.Cu"⟩ sampleFootprint
    (by decide) (by decide) (by decide) (by decide) (by decide) (by decide) (by decide)
  exact ⟨h.1, h.2⟩

/-! ## Claim C10 — alignment with distribution "none" is a pure
single-axis move -/

/-- C10: with `distribution="none"`, horizontal alignment returns a
permutation of the selected components in which each component keeps
its own X and only Y is replaced (by the floored mean); vertical
alignment symmetrically keeps each Y and replaces only X. -/
theorem C10_distribution_none (comps : List Footprint) (sp : Option ℚ) :
    (align_horizontally comps "none" sp).Perm
      (comps.map (fun m =>
        { m with pos :=
            ⟨m.pos.x,
              (((comps.map (fun mm => mm.pos.y)).sum : ℤ)).fdiv comps.length⟩ })) ∧
    (align_vertically comps "none" sp).Perm
      (comps.map (fun m =>
        { m with pos :=
            ⟨(((comps.map (fun mm => mm.pos.x)).sum : ℤ)).fdiv comps.length,
              m.pos.y⟩ })) := by
  constructor
  · cases comps with
    | nil => simp [align_horizontally]
    | cons c cs =>
      simp only [align_horizontally]
      rw [if_neg (fun h => absurd h.1 (by decide)), if_neg (fun h => absurd h.1 (by decide))]
      exact (List.mergeSort_perm (c :: cs) leX).map _
  · cases comps with
    | nil => simp [align_vertically]
    | cons c cs =>
      simp only [align_vertically]
      rw [if_neg (fun h => absurd h.1 (by decide)), if_neg (fun h => absurd h.1 (by decide))]
      exact (List.mergeSort_perm (c :: cs) leY).map _

/-! ## Claim C2 — differential-pair geometry -/

/-- C2: with distinct start and end points, both nets existing and a
valid layer, `route_differential_pair` appends exactly the two rails:
the centerline from `s` to `e` shifted by `+(offX, offY)` on the
positive net and by `-(offX, offY)` on the negative net, where
`(offX, offY) = int(p * gap_nm / 2)` componentwise, `p = (-d.y, d.x)`,
`d = (e - s)/len` the normalized direction, and both rails carry the
same width.  With start equal to end the call fails `Invalid points`
and no track is added.  `len` is the floating-point segment length,
constrained to the exact value `√(dx²+dy²)` by `hlen0`/`hlen`. -/
theorem C2_diff_pair (k : Kernel) (b : Board) (p : DiffPairParams) (len : ℚ)
    (cs ce : Coords)
    (hs : p.startPos = some (.coords cs)) (he : p.endPos = some (.coords ce))
    (hnp : truthyStr p.netPos = true) (hnn : truthyStr p.netNeg = true)
    (hmem : p.netPos.getD "" ∈ b.nets ∧ p.netNeg.getD "" ∈ b.nets)
    (hlayer : 0 ≤ k.getLayerID p.layer)
    (hlen0 : 0 ≤ len)
    (hlen : len * len =
      (((coordsToVec ce).x - (coordsToVec cs).x : ℤ) : ℚ) ^ 2 +
      (((coordsToVec ce).y - (coordsToVec cs).y : ℤ) : ℚ) ^ 2) :
    (coordsToVec cs = coordsToVec ce →
      route_differential_pair k (some b) p len =
        (.fail "Invalid points" (some "Start and end points must be different"), some b)) ∧
    (coordsToVec cs ≠ coordsToVec ce →
      route_differential_pair k (some b) p len =
        (let s := coordsToVec cs
         let e := coordsToVec ce
         let gap := p.gap.getD (2 / 10)
         let gapNm : ℤ := pytrunc (gap * 1000000)
         let px : ℚ := -(((e.y - s.y : ℤ) : ℚ) / len)
         let py : ℚ := ((e.x - s.x : ℤ) : ℚ) / len
         let offX := pytrunc (px * (gapNm : ℚ) / 2)
         let offY := pytrunc (py * (gapNm : ℚ) / 2)
         let w : ℤ := match p.width with
           | some ww => pytrunc (ww * 1000000)
           | none => k.currentTrackWidth
         (.ok ⟨p.netPos.getD "", p.netNeg.getD "", p.layer, w, gap, len / 1000000⟩,
           some { b with tracks := b.tracks ++
             [⟨"", ⟨s.x + offX, s.y + offY⟩, ⟨e.x + offX, e.y + offY⟩,
                k.getLayerID p.layer, w, some (p.netPos.getD "")⟩,
              ⟨"", ⟨s.x - offX, s.y - offY⟩, ⟨e.x - offX, e.y - offY⟩,
                k.getLayerID p.layer, w, some (p.netNeg.getD "")⟩] }))) := by
  have hmiss : ¬ (p.startPos = none ∨ p.endPos = none ∨
      ¬ truthyStr p.netPos ∨ ¬ truthyStr p.netNeg) := by
    rw [hs, he]
    push_neg
    exact ⟨Option.some_ne_none _, Option.some_ne_none _, hnp, hnn⟩
  have hlid : ¬ (k.getLayerID p.layer < 0) := not_lt.mpr hlayer
  have hnets : ¬ ¬ (p.netPos.getD "" ∈ b.nets ∧ p.netNeg.getD "" ∈ b.nets) :=
    not_not_intro hmem
  constructor
  · intro heq
    have hzero : len = 0 := by
      have : len * len = 0 := by
        rw [hlen, heq]
        simp
      exact mul_self_eq_zero.mp this
    simp only [route_differential_pair, if_neg hlid, if_neg hnets,
      hs, he, Option.getD_some, getPoint]
    rw [if_pos (le_of_eq hzero), if_neg
      (by push_neg;
          exact ⟨Option.some_ne_none _, Option.some_ne_none _, hnp, hnn⟩ : _)]
  · intro hne
    have hpos : ¬ (len ≤ 0) := by
      intro hle
      have hzero : len = 0 := le_antisymm hle hlen0
      rw [hzero, mul_zero] at hlen
      have hx2 : (((coordsToVec ce).x - (coordsToVec cs).x : ℤ) : ℚ) ^ 2 = 0 ∧
          (((coordsToVec ce).y - (coordsToVec cs).y : ℤ) : ℚ) ^ 2 = 0 := by
        constructor <;>
          nlinarith [sq_nonneg (((coordsToVec ce).x - (coordsToVec cs).x : ℤ) : ℚ),
            sq_nonneg (((coordsToVec ce).y - (coordsToVec cs).y : ℤ) : ℚ)]
      have hxx : (coordsToVec cs).x = (coordsToVec ce).x := by
        have h1 := sq_eq_zero_iff.mp hx2.1
        have h2 : ((coordsToVec ce).x - (coordsToVec cs).x : ℤ) = 0 := by
          exact_mod_cast h1
        omega
      have hyy : (coordsToVec cs).y = (coordsToVec ce).y := by
        have h1 := sq_eq_zero_iff.mp hx2.2
        have h2 : ((coordsToVec ce).y - (coordsToVec cs).y : ℤ) = 0 := by
          exact_mod_cast h1
        omega
      refine hne ?_
      have h3 : coordsToVec cs = ⟨(coordsToVec cs).x, (coordsToVec cs).y⟩ := rfl
      rw [h3, hxx, hyy]
    simp only [route_differential_pair, if_neg hlid, if_neg hnets,
      hs, he, Option.getD_some, getPoint]
    rw [if_neg hpos, if_neg
      (by push_neg;
          exact ⟨Option.some_ne_none _, Option.some_ne_none _, hnp, hnn⟩ : _)]

/-- C2 witness: the spec's own example — `start=(0,0)mm`, `end=(10,0)mm`,
`gap=0.2mm`, existing nets `P`/`N` — produces the positive rail at
`y = +0.1 mm` (+100000 internal units), the negative rail at
`y = -0.1 mm`, both spanning `x = 0..10 mm` (length 10 mm) with the same
default width. -/
theorem C2_diff_pair_witness :
    route_differential_pair sampleKernel (some ⟨[], [], ["P", "N"]⟩)
        ⟨some (.coords ⟨0, 0, "mm"⟩), some (.coords ⟨10, 0, "mm"⟩),
          some "P", some "N", "F.Cu", none, some (2 / 10)⟩ 10000000 =
      (.ok ⟨"P", "N", "F.Cu", 250000, 2 / 10, 10⟩,
        some ⟨[], [⟨"", ⟨0, 100000⟩, ⟨10000000, 100000⟩, 0, 250000, some "P"⟩,
               ⟨"", ⟨0, -100000⟩, ⟨10000000, -100000⟩, 0, 250000, some "N"⟩],
          ["P", "N"]⟩) := by
  have hcs : coordsToVec ⟨0, 0, "mm"⟩ = ⟨0, 0⟩ := by
    refine coordsToVec_eq ?_ ?_ <;>
      (rw [show unitScale "mm" = 1000000 from by simp [unitScale]]; norm_num)
  have hce : coordsToVec ⟨10, 0, "mm"⟩ = ⟨10000000, 0⟩ := by
    refine coordsToVec_eq ?_ ?_ <;>
      (rw [show unitScale "mm" = 1000000 from by simp [unitScale]]; norm_num)
  have h := (C2_diff_pair sampleKernel ⟨[], [], ["P", "N"]⟩
    ⟨some (.coords ⟨0, 0, "mm"⟩), some (.coords ⟨10, 0, "mm"⟩),
      some "P", some "N", "F.Cu", none, some (2 / 10)⟩ 10000000
    ⟨0, 0, "mm"⟩ ⟨10, 0, "mm"⟩ rfl rfl (by decide) (by decide)
    (by constructor <;> simp) (by norm_num [sampleKernel]) (by norm_num)
    (by rw [hcs, hce]; norm_num)).2
    (by rw [hcs, hce]; decide)
  rw [h]
  simp only [hcs, hce, Option.getD_some]
  norm_num
  refine ⟨by decide, ⟨?_, ?_⟩, by decide, by decide⟩
  · exact pytrunc_eq_intCast (by norm_num)
  · rw [show pytrunc (200000 : ℚ) = 200000 from pytrunc_eq_intCast (by norm_num)]
    exact pytrunc_eq_intCast (by norm_num)

/-! ## Claim C3 — delete trace by position

Distances are compared on their exact squares (`sqrt` is strictly
monotone), so the 1 mm threshold becomes `10¹²` on squares. -/

/-- The nearest-track fold, started from an arbitrary best-so-far pair:
it returns either the initial pair or an enumerated track at a strictly
smaller squared distance, and the result is a lower bound on every
scanned track's squared distance. -/
theorem closestTrack_foldl_some (p : Vec2) :
    ∀ (l : List Track) (k : ℕ) (b : ℕ × ℤ),
      ∃ r : ℕ × ℤ,
        (l.enumFrom k).foldl (closestStep p) (some b) = some r ∧
        (r = b ∨ ∃ j, j < l.length ∧ r.1 = k + j ∧
          r.2 = pointToTrackDistSq p (l.getD j default) ∧ r.2 < b.2) ∧
        r.2 ≤ b.2 ∧ ∀ t ∈ l, r.2 ≤ pointToTrackDistSq p t
  | [], k, b => ⟨b, rfl, Or.inl rfl, le_refl _, by simp⟩
  | t :: rest, k, b => by
    rw [List.enumFrom_cons, List.foldl_cons]
    by_cases hd : pointToTrackDistSq p t < b.2
    · rw [show closestStep p (some b) (k, t) =
        some (k, pointToTrackDistSq p t) from by
          simp only [closestStep]
          rw [if_pos hd]]
      obtain ⟨r, hr, hcase, hle, hall⟩ :=
        closestTrack_foldl_some p rest (k + 1) (k, pointToTrackDistSq p t)
      refine ⟨r, hr, ?_, le_trans hle (le_of_lt hd), ?_⟩
      · rcases hcase with hrb | ⟨j, hj, hj1, hj2, hj3⟩
        · refine Or.inr ⟨0, by simp, by rw [hrb]; simp, by rw [hrb]; simp,
            by rw [hrb]; exact hd⟩
        · refine Or.inr ⟨j + 1, by simpa using hj, by omega, by simpa using hj2,
            lt_trans hj3 hd⟩
      · intro u hu
        rcases List.mem_cons.mp hu with rfl | hmem
        · exact hle
        · exact hall u hmem
    · rw [show closestStep p (some b) (k, t) = some b from by
        simp only [closestStep]
        rw [if_neg hd]]
      obtain ⟨r, hr, hcase, hle, hall⟩ := closestTrack_foldl_some p rest (k + 1) b
      refine ⟨r, hr, ?_, hle, ?_⟩
      · rcases hcase with hrb | ⟨j, hj, hj1, hj2, hj3⟩
        · exact Or.inl hrb
        · exact Or.inr ⟨j + 1, by simpa using hj, by omega, by simpa using hj2, hj3⟩
      · intro u hu
        rcases List.mem_cons.mp hu with rfl | hmem
        · exact le_trans hle (not_lt.mp hd)
        · exact hall u hmem

/-- On a nonempty track list, the nearest-track search returns an index
in range whose squared distance is minimal over all tracks. -/
theorem closestTrack_spec (p : Vec2) (t : Track) (ts : List Track) :
    ∃ i d, closestTrack p (t :: ts) = some (i, d) ∧ i < (t :: ts).length ∧
      d = pointToTrackDistSq p ((t :: ts).getD i default) ∧
      ∀ u ∈ t :: ts, d ≤ pointToTrackDistSq p u := by
  obtain ⟨r, hr, hcase, hle, hall⟩ :=
    closestTrack_foldl_some p ts 1 (0, pointToTrackDistSq p t)
  refine ⟨r.1, r.2, ?_, ?_, ?_, ?_⟩
  · show (t :: ts).enum.foldl (closestStep p) none = some (r.1, r.2)
    rw [List.enum_cons, List.foldl_cons]
    exact hr
  · rcases hcase with hrb | ⟨j, hj, hj1, _, _⟩
    · rw [hrb]
      simp
    · rw [hj1]
      simp only [List.length_cons]
      omega
  · rcases hcase with hrb | ⟨j, hj, hj1, hj2, _⟩
    · rw [hrb]
      simp
    · rw [hj1, hj2]
      have h1j : (1 + j) = j + 1 := by omega
      rw [h1j, List.getD_cons_succ]
  · intro u hu
    rcases List.mem_cons.mp hu with rfl | hmem
    · rcases hcase with hrb | ⟨_, _, _, _, hlt⟩
      · rw [hrb]
      · exact le_of_lt (by simpa using hlt)
    · exact hall u hmem

/-- C3: deleting by position uses the clamped point-to-segment squared
distance (falling back to the point-to-point distance for a zero-length
track), and removes a minimum-distance track exactly when that minimum
is strictly below 1 mm (10⁶ internal units, i.e. 10¹² on squares) —
otherwise it fails `No track found` and removes nothing. -/
theorem C3_delete_by_position (b : Board) (c : Coords) :
    (∀ q u, u.start = u.stop → pointToTrackDistSq q u = pointDistSq q u.start) ∧
    (b.tracks = [] →
      delete_trace (some b) ⟨none, some c⟩ =
        (.fail "No track found" (some "No track found near specified position"), some b)) ∧
    (∀ t ts, b.tracks = t :: ts →
      ∃ i d, i < b.tracks.length ∧
        d = pointToTrackDistSq (coordsToVec c) (b.tracks.getD i default) ∧
        (∀ u ∈ b.tracks, d ≤ pointToTrackDistSq (coordsToVec c) u) ∧
        (d < 1000000 ^ 2 →
          delete_trace (some b) ⟨none, some c⟩ =
            (.ok (), some { b with tracks := b.tracks.eraseIdx i })) ∧
        (¬ d < 1000000 ^ 2 →
          delete_trace (some b) ⟨none, some c⟩ =
            (.fail "No track found" (some "No track found near specified position"),
              some b))) := by
  have hmiss : ¬ (¬ truthyStr (none : Option String) ∧ (some c) = none) := by
    intro hcon
    exact Option.some_ne_none c hcon.2
  have ht : ¬ (truthyStr (none : Option String) = true) := by decide
  refine ⟨?_, ?_, ?_⟩
  · intro q u h
    simp [pointToTrackDistSq, ← h]
  · intro h
    simp only [delete_trace, if_neg hmiss, if_neg ht, Option.getD_some, h]
    rfl
  · intro t ts h
    obtain ⟨i, d, hfind, hlt, hd, hmin⟩ := closestTrack_spec (coordsToVec c) t ts
    rw [← h] at hfind hlt hd hmin
    refine ⟨i, d, hlt, hd, hmin, ?_, ?_⟩
    · intro hsmall
      simp only [delete_trace, if_neg hmiss, if_neg ht, Option.getD_some, hfind]
      rw [if_pos hsmall]
    · intro hbig
      simp only [delete_trace, if_neg hmiss, if_neg ht, Option.getD_some, hfind]
      rw [if_neg hbig]

/-- C3 witness: on the spec's example track `(0,0)-(10,0)mm`, position
`(5, 0.0005)mm` (squared distance 500² = 250000 < 10¹²) deletes the
track, while position `(5,5)mm` (squared distance 25·10¹² ≥ 10¹²) fails
`No track found` and leaves the board unchanged. -/
theorem C3_delete_by_position_witness :
    delete_trace (some ⟨[], [⟨"t", ⟨0, 0⟩, ⟨10000000, 0⟩, 0, 250000, none⟩], []⟩)
        ⟨none, some ⟨5, 0.0005, "mm"⟩⟩ =
      (.ok (), some ⟨[], [], []⟩) ∧
    delete_trace (some ⟨[], [⟨"t", ⟨0, 0⟩, ⟨10000000, 0⟩, 0, 250000, none⟩], []⟩)
        ⟨none, some ⟨5, 5, "mm"⟩⟩ =
      (.fail "No track found" (some "No track found near specified position"),
        some ⟨[], [⟨"t", ⟨0, 0⟩, ⟨10000000, 0⟩, 0, 250000, none⟩], []⟩) := by
  have hu : unitScale "mm" = 1000000 := by simp [unitScale]
  constructor
  · have hpt : coordsToVec ⟨5, 0.0005, "mm"⟩ = ⟨5000000, 500⟩ := by
      refine coordsToVec_eq ?_ ?_ <;> (rw [hu]; norm_num)
    obtain ⟨_, _, hcons⟩ := C3_delete_by_position
      ⟨[], [⟨"t", ⟨0, 0⟩, ⟨10000000, 0⟩, 0, 250000, none⟩], []⟩ ⟨5, 0.0005, "mm"⟩
    obtain ⟨i, d, hlt, hd, _, hok, _⟩ :=
      hcons ⟨"t", ⟨0, 0⟩, ⟨10000000, 0⟩, 0, 250000, none⟩ [] rfl
    have hi : i = 0 := by
      simp only [List.length_cons, List.length_nil] at hlt
      omega
    subst hi
    rw [hpt] at hd
    have hd250 : d = 250000 := by
      rw [hd]
      show pointToTrackDistSq ⟨5000000, 500⟩ ⟨"t", ⟨0, 0⟩, ⟨10000000, 0⟩, 0, 250000, none⟩ = _
      simp only [pointToTrackDistSq, pointDistSq]
      norm_num
      rw [show pytrunc (5000000 : ℚ) = 5000000 from pytrunc_eq_intCast (by norm_num),
          show pytrunc (0 : ℚ) = 0 from pytrunc_eq_intCast (by norm_num)]
      norm_num
    exact hok (by rw [hd250]; norm_num)
  · have hpt : coordsToVec ⟨5, 5, "mm"⟩ = ⟨5000000, 5000000⟩ := by
      refine coordsToVec_eq ?_ ?_ <;> (rw [hu]; norm_num)
    obtain ⟨_, _, hcons⟩ := C3_delete_by_position
      ⟨[], [⟨"t", ⟨0, 0⟩, ⟨10000000, 0⟩, 0, 250000, none⟩], []⟩ ⟨5, 5, "mm"⟩
    obtain ⟨i, d, hlt, hd, _, _, hfail⟩ :=
      hcons ⟨"t", ⟨0, 0⟩, ⟨10000000, 0⟩, 0, 250000, none⟩ [] rfl
    have hi : i = 0 := by
      simp only [List.length_cons, List.length_nil] at hlt
      omega
    subst hi
    rw [hpt] at hd
    have hd25e12 : d = 25000000000000 := by
      rw [hd]
      show pointToTrackDistSq ⟨5000000, 5000000⟩
        ⟨"t", ⟨0, 0⟩, ⟨10000000, 0⟩, 0, 250000, none⟩ = _
      simp only [pointToTrackDistSq, pointDistSq]
      norm_num
      rw [show pytrunc (5000000 : ℚ) = 5000000 from pytrunc_eq_intCast (by norm_num),
          show pytrunc (0 : ℚ) = 0 from pytrunc_eq_intCast (by norm_num)]
      norm_num
    exact hfail (by rw [hd25e12]; norm_num)

/-! ## Claim C9 — BOM grouping -/

/-- The dictionary update step never changes an entry's key. -/
theorem bomUpdate_fst (c : BomComp) (kg : String × BomGroup) :
    (bomUpdate c kg).1 = kg.1 := by
  by_cases he : kg.1 = bomKey c <;> simp [bomUpdate, he]

/-- One grouping step preserves the dictionary invariant, extending the
processed prefix by the inserted component. -/
theorem bomInsert_inv {done : List BomComp} {acc : List (String × BomGroup)}
    (h : BomInv done acc) (c : BomComp) : BomInv (done ++ [c]) (bomInsert acc c) := by
  obtain ⟨hnodup, hent, hmem⟩ := h
  by_cases hk : ((acc.lookup (bomKey c)).isSome : Prop)
  · obtain ⟨p0, hp0, hp0e⟩ := List.lookup_isSome_iff.mp hk
    have hp0k : p0.1 = bomKey c := (beq_iff_eq.mp hp0e).symm
    rw [bomInsert, if_pos hk]
    refine ⟨?_, ?_, ?_⟩
    · rw [List.map_map,
        show (Prod.fst ∘ bomUpdate c) = Prod.fst from funext fun kg => bomUpdate_fst c kg]
      exact hnodup
    · intro kg2 hkg2
      obtain ⟨kg, hkg, rfl⟩ := List.mem_map.mp hkg2
      obtain ⟨hkey, hrefs, hqty⟩ := hent kg hkg
      by_cases he : kg.1 = bomKey c
      · rw [bomUpdate, if_pos he]
        refine ⟨hkey, ?_, ?_⟩
        · show kg.2.references ++ [c.reference] = _
          rw [List.filter_append, List.map_append, ← hrefs]
          have hflt : List.filter (fun c2 => decide (bomKey c2 = kg.1)) [c] = [c] := by
            rw [List.filter_cons,
              if_pos (by simp only [decide_eq_true_eq]; exact he.symm)]
            rfl
          rw [hflt]
          simp
        · show kg.2.quantity + 1 = _
          rw [List.filter_append, List.length_append, ← hqty]
          have hflt : List.filter (fun c2 => decide (bomKey c2 = kg.1)) [c] = [c] := by
            rw [List.filter_cons,
              if_pos (by simp only [decide_eq_true_eq]; exact he.symm)]
            rfl
          rw [hflt]
          rfl
      · rw [bomUpdate, if_neg he]
        refine ⟨hkey, ?_, ?_⟩
        · rw [List.filter_append, List.map_append, ← hrefs]
          have hflt : List.filter (fun c2 => decide (bomKey c2 = kg.1)) [c] = [] := by
            rw [List.filter_cons,
              if_neg (by simp only [decide_eq_true_eq]; exact fun hcc => he hcc.symm)]
            rfl
          rw [hflt]
          simp
        · rw [List.filter_append, List.length_append, ← hqty]
          have hflt : List.filter (fun c2 => decide (bomKey c2 = kg.1)) [c] = [] := by
            rw [List.filter_cons,
              if_neg (by simp only [decide_eq_true_eq]; exact fun hcc => he hcc.symm)]
            rfl
          rw [hflt]
          simp
    · intro c2 hc2
      rcases List.mem_append.mp hc2 with hc2d | hc2c
      · obtain ⟨kg, hkg, hkey⟩ := hmem c2 hc2d
        exact ⟨bomUpdate c kg, List.mem_map.mpr ⟨kg, hkg, rfl⟩,
          (bomUpdate_fst c kg).trans hkey⟩
      · have : c2 = c := by simpa using hc2c
        subst this
        exact ⟨bomUpdate c2 p0, List.mem_map.mpr ⟨p0, hp0, rfl⟩,
          (bomUpdate_fst c2 p0).trans hp0k⟩
  · have hnone : acc.lookup (bomKey c) = none := Option.not_isSome_iff_eq_none.mp hk
    have hnotin : ∀ kg ∈ acc, kg.1 ≠ bomKey c := by
      intro kg hkg
      have := List.lookup_eq_none_iff.mp hnone kg hkg
      intro heq
      rw [heq] at this
      simp at this
    have hdone : ∀ c2 ∈ done, bomKey c2 ≠ bomKey c := by
      intro c2 hc2 heq
      obtain ⟨kg, hkg, hkey⟩ := hmem c2 hc2
      exact hnotin kg hkg (hkey.trans heq)
    rw [bomInsert, if_neg hk]
    refine ⟨?_, ?_, ?_⟩
    · rw [List.map_append]
      refine List.Nodup.append hnodup (by simp) ?_
      intro x hx hx2
      simp only [List.map_cons, List.map_nil, List.mem_singleton] at hx2
      subst hx2
      obtain ⟨kg, hkg, hkey⟩ := List.mem_map.mp hx
      exact hnotin kg hkg hkey
    · intro kg2 hkg2
      rcases List.mem_append.mp hkg2 with hold | hnew
      · obtain ⟨hkey, hrefs, hqty⟩ := hent kg2 hold
        have hflt : List.filter (fun c2 => decide (bomKey c2 = kg2.1)) [c] = [] := by
          rw [List.filter_cons,
            if_neg (by simp only [decide_eq_true_eq]
                       exact fun hcc => hnotin kg2 hold hcc.symm)]
          rfl
        refine ⟨hkey, ?_, ?_⟩
        · rw [List.filter_append, List.map_append, ← hrefs, hflt]
          simp
        · rw [List.filter_append, List.length_append, ← hqty, hflt]
          simp
      · have : kg2 = (bomKey c, ⟨c.value, c.footprint, 1, [c.reference]⟩) := by
          simpa using hnew
        subst this
        have hfltdone : List.filter (fun c2 => decide (bomKey c2 = bomKey c)) done = [] := by
          rw [List.filter_eq_nil_iff]
          intro c2 hc2
          simpa using hdone c2 hc2
        have hfltc : List.filter (fun c2 => decide (bomKey c2 = bomKey c)) [c] = [c] := by
          rw [List.filter_cons, if_pos (by simp)]
          rfl
        refine ⟨rfl, ?_, ?_⟩
        · show [c.reference] = _
          rw [List.filter_append, List.map_append, hfltdone, hfltc]
          simp
        · show 1 = _
          rw [List.filter_append, List.length_append, hfltdone, hfltc]
          simp
    · intro c2 hc2
      rcases List.mem_append.mp hc2 with hc2d | hc2c
      · obtain ⟨kg, hkg, hkey⟩ := hmem c2 hc2d
        exact ⟨kg, List.mem_append_left _ hkg, hkey⟩
      · have : c2 = c := by simpa using hc2c
        subst this
        exact ⟨(bomKey c2, ⟨c2.value, c2.footprint, 1, [c2.reference]⟩),
          List.mem_append_right _ (by simp), rfl⟩

/-- The whole grouping fold preserves the dictionary invariant. -/
theorem bomFold_inv :
    ∀ (cs done : List BomComp) (acc : List (String × BomGroup)),
      BomInv done acc → BomInv (done ++ cs) (cs.foldl bomInsert acc)
  | [], done, acc, h => by simpa using h
  | c :: rest, done, acc, h => by
    have h3 := bomFold_inv rest (done ++ [c]) (bomInsert acc c) (bomInsert_inv h c)
    rw [List.foldl_cons]
    have he : done ++ [c] ++ rest = done ++ (c :: rest) := by
      rw [List.append_assoc]
      rfl
    rw [he] at h3
    exact h3

/-- C9 (amended): BOM grouping keys components by the *string*
`value + "_" + footprint`.  Every output group aggregates exactly the
components carrying its key — its references in input order and its
quantity their count — group keys are pairwise distinct, every
component lands in a group, and two components agreeing on value and
footprint always share a key (hence, by distinctness, a group).
Distinct `(value, footprint)` pairs whose concatenations collide are
merged as well, which is what refutes the claim's "only if"
direction. -/
theorem C9_bom_grouping (comps : List BomComp) :
    (∀ g ∈ bomGroupComponents comps,
        g.references = (comps.filter
          (fun c => bomKey c = g.value ++ "_" ++ g.footprint)).map (fun c => c.reference) ∧
        g.quantity = (comps.filter
          (fun c => bomKey c = g.value ++ "_" ++ g.footprint)).length) ∧
    ((bomGroupComponents comps).map (fun g => g.value ++ "_" ++ g.footprint)).Nodup ∧
    (∀ c ∈ comps, ∃ g ∈ bomGroupComponents comps,
        g.value ++ "_" ++ g.footprint = bomKey c) ∧
    (∀ c1 ∈ comps, ∀ c2 ∈ comps, c1.value = c2.value → c1.footprint = c2.footprint →
        bomKey c1 = bomKey c2) := by
  have hinv : BomInv comps (comps.foldl bomInsert []) := by
    have h0 : BomInv [] [] := ⟨List.nodup_nil, by simp, by simp⟩
    have h1 := bomFold_inv comps [] [] h0
    simpa using h1
  obtain ⟨hnodup, hent, hmem⟩ := hinv
  refine ⟨?_, ?_, ?_, ?_⟩
  · intro g hg
    obtain ⟨kg, hkg, rfl⟩ := List.mem_map.mp hg
    obtain ⟨hkey, hrefs, hqty⟩ := hent kg hkg
    rw [← hkey]
    exact ⟨hrefs, hqty⟩
  · have hmap : (bomGroupComponents comps).map (fun g => g.value ++ "_" ++ g.footprint) =
        (comps.foldl bomInsert []).map Prod.fst := by
      rw [bomGroupComponents, List.map_map]
      refine List.map_congr_left ?_
      intro kg hkg
      exact ((hent kg hkg).1).symm
    rw [hmap]
    exact hnodup
  · intro c hc
    obtain ⟨kg, hkg, hkey⟩ := hmem c hc
    refine ⟨kg.2, List.mem_map.mpr ⟨kg, hkg, rfl⟩, ?_⟩
    rw [← (hent kg hkg).1]
    exact hkey
  · intro c1 _ c2 _ hv hf
    rw [bomKey, bomKey, hv, hf]

/-- C9 counterexample: `("A_B", "C")` and `("A", "B_C")` disagree on
value and footprint yet share the concatenated key `"A_B_C"`, so the
two components end up in one group with quantity 2 — the claimed "same
group only if same (value, footprint)" fails. -/
theorem C9_counterexample :
    bomGroupComponents [⟨"R1", "A_B", "C"⟩, ⟨"R2", "A", "B_C"⟩] =
      [⟨"A_B", "C", 2, ["R1", "R2"]⟩] ∧
    ¬ (("A_B", "C") = ("A", "B_C")) :=
  ⟨by decide, by decide⟩

/-- C9 witness: the spec's example — two components sharing
`(value, footprint)` yield a single entry with `quantity = 2` and both
references listed, matching the amended statement's aggregation. -/
theorem C9_bom_grouping_witness :
    bomGroupComponents [⟨"R1", "10k", "R_0603"⟩, ⟨"R2", "10k", "R_0603"⟩] =
      [⟨"10k", "R_0603", 2, ["R1", "R2"]⟩] ∧
    (⟨"10k", "R_0603", 2, ["R1", "R2"]⟩ : BomGroup).references =
      ([⟨"R1", "10k", "R_0603"⟩, ⟨"R2", "10k", "R_0603"⟩].filter
        (fun c => bomKey c = "10k" ++ "_" ++ "R_0603")).map (fun c => c.reference) := by
  refine ⟨by decide, ?_⟩
  have h := (C9_bom_grouping [⟨"R1", "10k", "R_0603"⟩, ⟨"R2", "10k", "R_0603"⟩]).1
    ⟨"10k", "R_0603", 2, ["R1", "R2"]⟩ (by decide)
  exact h.1

/-! ## Claim C1 — grid array placement -/

/-- A prefix followed by a decimal rendering is never the empty string
(so the generated reference always passes the Python truthiness check in
`place_component`). -/
theorem append_natRepr_ne_empty (s : String) (n : ℕ) : s ++ Nat.repr n ≠ "" := by
  intro h
  have hdata := congrArg String.data h
  simp only [String.data_append] at hdata
  have hnil : (Nat.repr n).data = [] := (List.append_eq_nil.mp hdata).2
  exact natRepr_ne_empty n (String.ext hnil)

/-- Peeling the last row off the grid iteration. -/
theorem gridCells_succ (rows cols : ℕ) :
    gridCells (rows + 1) cols =
      gridCells rows cols ++ (List.range cols).map (fun col => (rows, col)) := by
  simp [gridCells, List.range_succ]

/-- Row-major iteration visits flat indices `row*columns + col` in
exactly the order `0, 1, …, rows*columns - 1`. -/
theorem gridCells_index (rows cols : ℕ) :
    (gridCells rows cols).map (fun rc => rc.1 * cols + rc.2) = List.range (rows * cols) := by
  induction rows with
  | zero => simp [gridCells]
  | succ r ih =>
    rw [gridCells_succ, List.map_append, ih,
      show (r + 1) * cols = r * cols + cols from by ring, List.range_add]
    congr 1
    rw [List.map_map]
    refine List.map_congr_left ?_
    intro c _
    simp

/-- The grid walk visits `rows * columns` cells. -/
theorem gridCells_length (rows cols : ℕ) :
    (gridCells rows cols).length = rows * cols := by
  have h := congrArg List.length (gridCells_index rows cols)
  simpa using h

/-- Every visited cell is in range. -/
theorem gridCells_mem {rows cols : ℕ} {rc : ℕ × ℕ} (h : rc ∈ gridCells rows cols) :
    rc.1 < rows ∧ rc.2 < cols := by
  simp only [gridCells, List.mem_flatMap, List.mem_map, List.mem_range] at h
  obtain ⟨r, hr, c, hc, rfl⟩ := h
  exact ⟨hr, hc⟩

/-- Base-`columns` decomposition of a flat index is unique. -/
theorem rowcol_unique {cols a1 a2 b1 b2 : ℕ} (hb1 : b1 < cols) (hb2 : b2 < cols)
    (h : a1 * cols + b1 = a2 * cols + b2) : a1 = a2 ∧ b1 = b2 := by
  have hc : 0 < cols := Nat.pos_of_ne_zero (by omega)
  have hdiv : ∀ a b : ℕ, b < cols → (a * cols + b) / cols = a := by
    intro a b hb
    rw [Nat.mul_comm, Nat.mul_add_div hc, Nat.div_eq_of_lt hb]
    omega
  have hmod : ∀ a b : ℕ, b < cols → (a * cols + b) % cols = b := by
    intro a b hb
    rw [Nat.mul_comm, Nat.mul_add_mod, Nat.mod_eq_of_lt hb]
  constructor
  · rw [← hdiv a1 b1 hb1, ← hdiv a2 b2 hb2, h]
  · rw [← hmod a1 b1 hb1, ← hmod a2 b2 hb2, h]

/-- The cell at flat position `row*columns + col` of the walk is
`(row, col)`. -/
theorem gridCells_getElem {rows cols row col : ℕ} (hc : col < cols)
    (h : row * cols + col < (gridCells rows cols).length) :
    (gridCells rows cols).get ⟨row * cols + col, h⟩ = (row, col) := by
  have hmap := gridCells_index rows cols
  have hi : row * cols + col < rows * cols := by
    rw [← gridCells_length rows cols]
    exact h
  have h2 : ((gridCells rows cols).map
      (fun rc => rc.1 * cols + rc.2))[row * cols + col]? = some (row * cols + col) := by
    rw [hmap]
    exact List.getElem?_range hi
  rw [List.getElem?_map, List.getElem?_eq_getElem h] at h2
  have h3 : ((gridCells rows cols).get ⟨row * cols + col, h⟩).1 * cols +
      ((gridCells rows cols).get ⟨row * cols + col, h⟩).2 = row * cols + col := by
    have h4 := Option.some.inj (by simpa using h2)
    simpa [List.get_eq_getElem] using h4
  have hmem : (gridCells rows cols).get ⟨row * cols + col, h⟩ ∈ gridCells rows cols :=
    List.get_mem _ _ _
  have hbound := gridCells_mem hmem
  have huniq := rowcol_unique hbound.2 hc h3
  exact Prod.ext_iff.mpr ⟨huniq.1, huniq.2⟩

/-- `place_component` under a successful library lookup, a nonempty
component id and a nonempty reference: it always succeeds, echoes the
user-unit position, and appends exactly one footprint built from the
loaded library footprint. -/
theorem place_component_step (k : Kernel) (fp : Footprint) {cid : String}
    (hload : k.footprintLoad cid = some fp) (hcid : ¬ cid = "")
    (board : Board) (x y : ℚ) (u ref : String) (href : ¬ ref = "")
    (value : Option String) (rot : ℚ) (layer : String) :
    place_component k (some board) ⟨cid, some ⟨x, y, u⟩, some ref, value, none, rot, layer⟩ =
      (.ok ⟨ref, (if truthyStr value then value.getD "" else fp.value), x, y, u, rot, layer⟩,
        some { board with footprints := board.footprints ++
          [{ reference := ref,
             value := if truthyStr value then value.getD "" else fp.value,
             footprintName := fp.footprintName,
             pads := fp.pads,
             pos := coordsToVec ⟨x, y, u⟩,
             orientationDeci := rot * 10,
             layer := if 0 ≤ k.getLayerID layer then k.getLayerID layer else fp.layer }] }) := by
  have hmiss : ¬ (cid = "" ∨ (some (Coords.mk x y u) : Option Coords) = none) := by
    push_neg
    exact ⟨hcid, Option.some_ne_none _⟩
  have htr : truthyStr (some ref) = true := by
    simp [truthyStr, href]
  simp only [place_component, hload, if_neg hmiss, Option.getD_some, htr, if_pos]
  by_cases hv : truthyStr value = true <;>
    by_cases hl : (0 : ℤ) ≤ k.getLayerID layer <;>
      simp [hv, hl, show truthyStr (none : Option String) = false from rfl]

/-- The grid placement fold, over any cell list: every cell placement
succeeds, so the board gains one footprint per cell and the result list
collects one payload per cell, in order. -/
theorem grid_foldl (k : Kernel) (fp : Footprint) {cid : String}
    (hload : k.footprintLoad cid = some fp) (hcid : ¬ cid = "")
    (startPos : Coords) (cols : ℕ) (sx sy : ℚ) (refPfx : String)
    (value : Option String) (rot : ℚ) (layer : String) :
    ∀ (cells : List (ℕ × ℕ)) (b0 : Board) (acc : List PlacedComponent),
      cells.foldl
        (fun acc2 cell =>
          match place_component k (some acc2.1)
            (gridCellParams cid startPos cols sx sy refPfx value rot layer cell) with
          | (.ok comp, some b1) => (b1, acc2.2 ++ [comp])
          | _ => acc2)
        (b0, acc) =
      ({ b0 with footprints := b0.footprints ++ cells.map (fun cell =>
          { reference := refPfx ++ Nat.repr (cell.1 * cols + cell.2 + 1),
            value := if truthyStr value then value.getD "" else fp.value,
            footprintName := fp.footprintName,
            pads := fp.pads,
            pos := coordsToVec ⟨startPos.x + cell.2 * sx, startPos.y + cell.1 * sy,
              startPos.unit⟩,
            orientationDeci := rot * 10,
            layer := if 0 ≤ k.getLayerID layer then k.getLayerID layer else fp.layer }) },
       acc ++ cells.map (fun cell =>
          (⟨refPfx ++ Nat.repr (cell.1 * cols + cell.2 + 1),
            if truthyStr value then value.getD "" else fp.value,
            startPos.x + cell.2 * sx, startPos.y + cell.1 * sy, startPos.unit,
            rot, layer⟩ : PlacedComponent)))
  | [], b0, acc => by simp
  | cell :: rest, b0, acc => by
    rw [List.foldl_cons]
    have hstep := place_component_step k fp hload hcid b0
      (startPos.x + cell.2 * sx) (startPos.y + cell.1 * sy) startPos.unit
      (refPfx ++ Nat.repr (cell.1 * cols + cell.2 + 1))
      (append_natRepr_ne_empty refPfx (cell.1 * cols + cell.2 + 1)) value rot layer
    rw [show gridCellParams cid startPos cols sx sy refPfx value rot layer cell =
      ⟨cid, some ⟨startPos.x + cell.2 * sx, startPos.y + cell.1 * sy, startPos.unit⟩,
        some (refPfx ++ Nat.repr (cell.1 * cols + cell.2 + 1)), value, none, rot, layer⟩
      from rfl]
    rw [hstep]
    rw [grid_foldl k fp hload hcid startPos cols sx sy refPfx value rot layer rest]
    simp [List.append_assoc]

/-- C1: grid array placement with a resolvable component id places the
cell `(row, col)` (zero-indexed) at `(startX + col*spacingX,
startY + row*spacingY)` in the start position's unit — echoed in the
payload and converted to internal units for the inserted footprint —
with reference `prefix + (row*columns + col + 1)`; the references are
exactly `prefix1..prefixN` for `N = rows*columns` and are pairwise
distinct. -/
theorem C1_grid_array (k : Kernel) (b : Board) (cid : String) (startPos : Coords)
    (rows cols : ℕ) (sx sy : ℚ) (refPfx : String) (value : Option String)
    (rot : ℚ) (layer : String) (fp : Footprint)
    (hload : k.footprintLoad cid = some fp) (hcid : ¬ cid = "") :
    (place_grid_array k b cid startPos rows cols sx sy refPfx value rot layer).2.length =
      rows * cols ∧
    (∀ row col, row < rows → col < cols →
      (place_grid_array k b cid startPos rows cols sx sy refPfx value rot
          layer).2.getD (row * cols + col) default =
        ⟨refPfx ++ Nat.repr (row * cols + col + 1),
         if truthyStr value then value.getD "" else fp.value,
         startPos.x + col * sx, startPos.y + row * sy, startPos.unit, rot, layer⟩) ∧
    (place_grid_array k b cid startPos rows cols sx sy refPfx value rot
        layer).2.map (fun pc => pc.reference) =
      (List.range (rows * cols)).map (fun i => refPfx ++ Nat.repr (i + 1)) ∧
    ((place_grid_array k b cid startPos rows cols sx sy refPfx value rot
        layer).2.map (fun pc => pc.reference)).Nodup ∧
    (place_grid_array k b cid startPos rows cols sx sy refPfx value rot
        layer).1.footprints.map (fun m => m.pos) =
      b.footprints.map (fun m => m.pos) ++
        (place_grid_array k b cid startPos rows cols sx sy refPfx value rot
          layer).2.map (fun pc => coordsToVec ⟨pc.x, pc.y, pc.unit⟩) := by
  have hpga : place_grid_array k b cid startPos rows cols sx sy refPfx value rot layer =
      ({ b with footprints := b.footprints ++ (gridCells rows cols).map (fun cell =>
          { reference := refPfx ++ Nat.repr (cell.1 * cols + cell.2 + 1),
            value := if truthyStr value then value.getD "" else fp.value,
            footprintName := fp.footprintName,
            pads := fp.pads,
            pos := coordsToVec ⟨startPos.x + cell.2 * sx, startPos.y + cell.1 * sy,
              startPos.unit⟩,
            orientationDeci := rot * 10,
            layer := if 0 ≤ k.getLayerID layer then k.getLayerID layer else fp.layer }) },
       [] ++ (gridCells rows cols).map (fun cell =>
          (⟨refPfx ++ Nat.repr (cell.1 * cols + cell.2 + 1),
            if truthyStr value then value.getD "" else fp.value,
            startPos.x + cell.2 * sx, startPos.y + cell.1 * sy, startPos.unit,
            rot, layer⟩ : PlacedComponent))) := by
    rw [place_grid_array]
    exact grid_foldl k fp hload hcid startPos cols sx sy refPfx value rot layer
      (gridCells rows cols) b []
  rw [hpga]
  simp only [List.nil_append]
  have hmaprefs : ((gridCells rows cols).map (fun cell =>
      (⟨refPfx ++ Nat.repr (cell.1 * cols + cell.2 + 1),
        if truthyStr value then value.getD "" else fp.value,
        startPos.x + cell.2 * sx, startPos.y + cell.1 * sy, startPos.unit,
        rot, layer⟩ : PlacedComponent))).map (fun pc => pc.reference) =
      (List.range (rows * cols)).map (fun i => refPfx ++ Nat.repr (i + 1)) := by
    rw [List.map_map, ← gridCells_index rows cols, List.map_map]
    rfl
  refine ⟨?_, ?_, hmaprefs, ?_, ?_⟩
  · rw [List.length_map, gridCells_length]
  · intro row col hr hc
    have hi : row * cols + col < (gridCells rows cols).length := by
      rw [gridCells_length]
      calc row * cols + col < row * cols + cols := by omega
      _ = (row + 1) * cols := by ring
      _ ≤ rows * cols := Nat.mul_le_mul_right cols hr
    have hi2 : row * cols + col < ((gridCells rows cols).map (fun cell =>
        (⟨refPfx ++ Nat.repr (cell.1 * cols + cell.2 + 1),
          if truthyStr value then value.getD "" else fp.value,
          startPos.x + cell.2 * sx, startPos.y + cell.1 * sy, startPos.unit,
          rot, layer⟩ : PlacedComponent))).length := by
      rw [List.length_map]
      exact hi
    rw [List.getD_eq_getElem?_getD, List.getElem?_map, List.getElem?_eq_getElem hi]
    have hcell := gridCells_getElem hc hi
    rw [List.get_eq_getElem] at hcell
    rw [hcell]
    simp
  · rw [hmaprefs]
    refine List.Nodup.map ?_ (List.nodup_range _)
    intro a c h
    have := append_natRepr_injective refPfx h
    omega
  · rw [List.map_append, List.map_map, List.map_map]
    rfl

/-- C1 witness: a concrete 2×2 grid from `(10,20)mm` with spacing
`(2,3)mm` yields references `U1..U4`, pairwise distinct, with cell
`(1,1)` at `(12,23)mm`. -/
theorem C1_grid_array_witness :
    (place_grid_array sampleKernel ⟨[], [], []⟩ "RES" ⟨10, 20, "mm"⟩ 2 2 2 3 "U" none 0
        "F.Cu").2.length = 2 * 2 ∧
    (place_grid_array sampleKernel ⟨[], [], []⟩ "RES" ⟨10, 20, "mm"⟩ 2 2 2 3 "U" none 0
        "F.Cu").2.getD (1 * 2 + 1) default =
      ⟨"U4", "10k", 12, 23, "mm", 0, "F.Cu"⟩ ∧
    (place_grid_array sampleKernel ⟨[], [], []⟩ "RES" ⟨10, 20, "mm"⟩ 2 2 2 3 "U" none 0
        "F.Cu").2.map (fun pc => pc.reference) = ["U1", "U2", "U3", "U4"] ∧
    ((place_grid_array sampleKernel ⟨[], [], []⟩ "RES" ⟨10, 20, "mm"⟩ 2 2 2 3 "U" none 0
        "F.Cu").2.map (fun pc => pc.reference)).Nodup := by
  have h := C1_grid_array sampleKernel ⟨[], [], []⟩ "RES" ⟨10, 20, "mm"⟩ 2 2 2 3 "U" none 0
    "F.Cu" sampleFootprint (by decide) (by decide)
  refine ⟨h.1, ?_, ?_, h.2.2.2.1⟩
  · have h2 := h.2.1 1 1 (by norm_num) (by norm_num)
    rw [h2]
    simp only [PlacedComponent.mk.injEq]
    refine ⟨by decide, by decide, by norm_num, by norm_num, by trivial, by trivial, by trivial⟩
  · rw [h.2.2.1]
    decide

/-! ## Claim C4 — horizontal alignment and equal distribution -/

/-- The X-comparison key is transitive. -/
theorem leX_trans : ∀ (a b c : Footprint), leX a b → leX b c → leX a c := by
  intro a b c h1 h2
  simp only [leX, decide_eq_true_eq] at h1 h2 ⊢
  exact le_trans h1 h2

/-- The X-comparison key is total. -/
theorem leX_total : ∀ (a b : Footprint), leX a b || leX b a := by
  intro a b
  simp only [leX, Bool.or_eq_true, decide_eq_true_eq]
  exact le_total a.pos.x b.pos.x

/-- `getLastD` through a map that preserves the X coordinate. -/
theorem getLastD_map_px (f : Footprint → Footprint) (hf : ∀ m, (f m).pos.x = m.pos.x) :
    ∀ (l : List Footprint) (d : Footprint),
      ((l.map f).getLastD (f d)).pos.x = (l.map (fun m => m.pos.x)).getLastD d.pos.x
  | [], d => hf d
  | a :: l, d => by
    rw [List.map_cons, List.getLastD_cons, List.map_cons, List.getLastD_cons]
    exact getLastD_map_px f hf l a

/-- C4 (amended): horizontal alignment sets every selected component's
Y to the *floored* mean (Python `//`, `Int.fdiv`) of the original Y
coordinates — not the truncation toward zero the claim states, which
differs on negative sums.  With `distribution="equal"` the result keeps
the selected components' X multiset (sorted ascending): the first and
last keep the leftmost/rightmost X, and each interior index `i` gets
`x_min + i * ((x_max - x_min) // (n-1))` — an arithmetic progression
between the original extremes up to the flooring of the common
difference. -/
theorem C4_align_horizontal (comps : List Footprint) (h2 : 2 ≤ comps.length)
    (dist : String) (sp : Option ℚ) :
    (∀ m ∈ align_horizontally comps dist sp,
        m.pos.y = (((comps.map (fun mm => mm.pos.y)).sum : ℤ)).fdiv comps.length) ∧
    (align_horizontally comps "equal" sp).length = comps.length ∧
    ((comps.mergeSort leX).map (fun m => m.pos.x)).Perm (comps.map (fun m => m.pos.x)) ∧
    List.Sorted (· ≤ ·) ((comps.mergeSort leX).map (fun m => m.pos.x)) ∧
    (∀ i, i < comps.length →
      ((align_horizontally comps "equal" sp).getD i default).pos.x =
        (if 1 ≤ i ∧ i < comps.length - 1 then
          ((comps.mergeSort leX).map (fun m => m.pos.x)).headD 0 +
            i * ((((comps.mergeSort leX).map (fun m => m.pos.x)).getLastD 0 -
              ((comps.mergeSort leX).map (fun m => m.pos.x)).headD 0).fdiv
                ((comps.length : ℤ) - 1))
        else ((comps.mergeSort leX).map (fun m => m.pos.x)).getD i 0)) := by
  obtain ⟨c, cs, rfl⟩ : ∃ c cs, comps = c :: cs := by
    cases comps with
    | nil => simp at h2
    | cons c cs => exact ⟨c, cs, rfl⟩
  obtain ⟨s0, srest, hms⟩ : ∃ s0 srest, (c :: cs).mergeSort leX = s0 :: srest := by
    cases hm : (c :: cs).mergeSort leX with
    | nil =>
      have := congrArg List.length hm
      simp at this
    | cons s0 srest => exact ⟨s0, srest, rfl⟩
  refine ⟨?_, ?_, ?_, ?_, ?_⟩
  · intro m hm
    simp only [align_horizontally] at hm
    split at hm
    · rw [List.mem_mapIdx] at hm
      obtain ⟨i, hi, heq⟩ := hm
      rw [← heq]
      split <;> simp [List.getElem_map]
    · split at hm
      · rw [List.mem_mapIdx] at hm
        obtain ⟨i, hi, heq⟩ := hm
        rw [← heq]
        split <;> simp [List.getElem_map]
      · rw [List.mem_map] at hm
        obtain ⟨a, _, heq⟩ := hm
        rw [← heq]
  · simp only [align_horizontally]
    rw [if_pos (⟨trivial, by simpa using h2⟩ : True ∧ 1 < (c :: cs).length)]
    simp
  · exact (List.mergeSort_perm (c :: cs) leX).map _
  · have hp := List.sorted_mergeSort leX_trans leX_total (c :: cs)
    refine List.Pairwise.map _ ?_ hp
    intro a b hab
    simpa [leX] using hab
  · intro i hi
    simp only [align_horizontally]
    rw [if_pos (⟨trivial, by simpa using h2⟩ : True ∧ 1 < (c :: cs).length)]
    rw [List.getD_eq_getElem?_getD, List.getElem?_eq_getElem (by simpa using hi)]
    simp only [Option.getD_some, List.getElem_mapIdx, List.getElem_map]
    by_cases hcond : 1 ≤ i ∧ i < (c :: cs).length - 1
    · rw [if_pos hcond, if_pos hcond]
      simp only [hms, List.map_cons, List.headD_cons, List.getLastD_cons]
      have hgl : ((List.map (fun (m : Footprint) =>
          { m with pos := Vec2.mk m.pos.x ((c.pos.y :: List.map (fun (m2 : Footprint) => m2.pos.y) cs).sum.fdiv ((c :: cs).length : ℤ)) }) srest).getLastD
          { s0 with pos := Vec2.mk s0.pos.x ((c.pos.y :: List.map (fun (m2 : Footprint) => m2.pos.y) cs).sum.fdiv ((c :: cs).length : ℤ)) }).pos.x =
          (List.map (fun (m : Footprint) => m.pos.x) srest).getLastD s0.pos.x :=
        getLastD_map_px (fun (m : Footprint) =>
          { m with pos := Vec2.mk m.pos.x ((c.pos.y :: List.map (fun (m2 : Footprint) => m2.pos.y) cs).sum.fdiv ((c :: cs).length : ℤ)) })
          (fun m => rfl) srest s0
      rw [hgl]
    · rw [if_neg hcond, if_neg hcond]
      rw [List.getD_eq_getElem?_getD, List.getElem?_eq_getElem (by simpa using hi),
        Option.getD_some, List.getElem_map]

/-- C4 counterexample: two components at Y = -1 and -2 internal units
get Y = `(-3) // 2 = -2` (floor division), while the claimed
integer-truncated mean is `Int.tdiv (-3) 2 = -1`. -/
theorem C4_counterexample :
    (align_horizontally
        [⟨"A", "", "", [], ⟨0, -1⟩, 0, 0⟩, ⟨"B", "", "", [], ⟨1, -2⟩, 0, 0⟩]
        "none" none).map (fun m => m.pos.y) = [-2, -2] ∧
    Int.tdiv (-3) 2 = -1 ∧
    ¬ ((-2 : ℤ) = -1) := by
  refine ⟨?_, by decide, by decide⟩
  have hs : ([⟨"A", "", "", [], ⟨0, -1⟩, 0, 0⟩,
      ⟨"B", "", "", [], ⟨1, -2⟩, 0, 0⟩] : List Footprint).mergeSort leX =
      [⟨"A", "", "", [], ⟨0, -1⟩, 0, 0⟩, ⟨"B", "", "", [], ⟨1, -2⟩, 0, 0⟩] :=
    List.mergeSort_of_sorted (by decide)
  simp only [align_horizontally, hs]
  decide

/-- C4 witness: three components at X = 0, 4, 20 (Y = 10, 20, 60) are
equal-distributed to X = 0, 10, 20 with every Y set to the floored mean
30. -/
theorem C4_align_horizontal_witness :
    ((align_horizontally
        [⟨"A", "", "", [], ⟨0, 10⟩, 0, 0⟩, ⟨"B", "", "", [], ⟨4, 20⟩, 0, 0⟩,
         ⟨"C", "", "", [], ⟨20, 60⟩, 0, 0⟩] "equal" none).getD 1 default).pos.x = 10 ∧
    (align_horizontally
        [⟨"A", "", "", [], ⟨0, 10⟩, 0, 0⟩, ⟨"B", "", "", [], ⟨4, 20⟩, 0, 0⟩,
         ⟨"C", "", "", [], ⟨20, 60⟩, 0, 0⟩] "equal" none).length = 3 ∧
    ((align_horizontally
        [⟨"A", "", "", [], ⟨0, 10⟩, 0, 0⟩, ⟨"B", "", "", [], ⟨4, 20⟩, 0, 0⟩,
         ⟨"C", "", "", [], ⟨20, 60⟩, 0, 0⟩] "equal" none).getD 1 default).pos.y = 30 := by
  have h := C4_align_horizontal
    [⟨"A", "", "", [], ⟨0, 10⟩, 0, 0⟩, ⟨"B", "", "", [], ⟨4, 20⟩, 0, 0⟩,
     ⟨"C", "", "", [], ⟨20, 60⟩, 0, 0⟩] (by decide) "equal" none
  have hs : ([⟨"A", "", "", [], ⟨0, 10⟩, 0, 0⟩, ⟨"B", "", "", [], ⟨4, 20⟩, 0, 0⟩,
      ⟨"C", "", "", [], ⟨20, 60⟩, 0, 0⟩] : List Footprint).mergeSort leX =
      [⟨"A", "", "", [], ⟨0, 10⟩, 0, 0⟩, ⟨"B", "", "", [], ⟨4, 20⟩, 0, 0⟩,
       ⟨"C", "", "", [], ⟨20, 60⟩, 0, 0⟩] :=
    List.mergeSort_of_sorted (by decide)
  have hlen : (align_horizontally
      [⟨"A", "", "", [], ⟨0, 10⟩, 0, 0⟩, ⟨"B", "", "", [], ⟨4, 20⟩, 0, 0⟩,
       ⟨"C", "", "", [], ⟨20, 60⟩, 0, 0⟩] "equal" none).length = 3 := h.2.1
  refine ⟨?_, hlen, ?_⟩
  · have h5 := h.2.2.2.2 1 (by decide)
    rw [h5, hs]
    decide
  · have hmem : ((align_horizontally
        [⟨"A", "", "", [], ⟨0, 10⟩, 0, 0⟩, ⟨"B", "", "", [], ⟨4, 20⟩, 0, 0⟩,
         ⟨"C", "", "", [], ⟨20, 60⟩, 0, 0⟩] "equal" none).getD 1 default) ∈
        (align_horizontally
          [⟨"A", "", "", [], ⟨0, 10⟩, 0, 0⟩, ⟨"B", "", "", [], ⟨4, 20⟩, 0, 0⟩,
           ⟨"C", "", "", [], ⟨20, 60⟩, 0, 0⟩] "equal" none) := by
      rw [List.getD_eq_getElem?_getD, List.getElem?_eq_getElem (by rw [hlen]; norm_num)]
      simp only [Option.getD_some]
      exact List.getElem_mem _
    have hy := h.1 _ hmem
    rw [hy]
    decide

end KicadMcp
